import Mathlib

/-!
# Document analyzer: store, gateway and list controller

A shallow embedding of `server/db.js` (the `documents` table and its helper
methods), `server/index.js` (the `POST /analyze` and `GET /documents`
handlers) and of the state logic of `src/components/Hero.jsx`
(`normalizeDocFromBackend`, `replaceAt`, `handleFileChange`, `loadDocs`,
`analyzeSingleFile`), followed by theorems about them.

Conventions of the embedding.

* JavaScript values that travel through `JSON.parse` / `JSON.stringify` are
  values of `Json`; `undefined` is `none` of `Option Json`.
* `JSON.parse` and `JSON.stringify` are built-ins of the runtime, not code of
  the repository. Every definition that calls them takes them from a
  `JsonLib` argument and every general theorem holds for any such library.
  `jsonLib` is a concrete library used where a statement is evaluated on a
  concrete input.
* A thrown exception is `Except.error` carrying the message of the error;
  the SyntaxError of `JSON.parse`, whose message is worded by the runtime,
  is carried as the text that was rejected (`ParseFailure`).
* The table is the list of its rows in the order a full scan returns them,
  with the `sqlite_sequence` counter of the AUTOINCREMENT key beside it.
  Row ids are integers; an insert fails once the key 2^63 - 1 was reached,
  and the id it returns to JavaScript is a double (`toDouble`).
* An `async` function is cut at its `await` of the network: the part before
  it and the part after it are two functions, the second one receiving the
  variables the closure captured in the first.
-/

namespace DocAnalyzer

/-! ## JavaScript values -/

/-- JSON values. Numbers are restricted to integers; the code under study
never computes with a number, it only passes numbers along. -/
inductive Json where
  | null
  | bool (b : Bool)
  | num (n : Int)
  | str (s : String)
  | arr (xs : List Json)
  | obj (kvs : List (String × Json))

namespace Json

/-- Property read `v.k` on a value that is not null: the last entry of that
key for an object (as `JSON.parse` keeps the last duplicate), `undefined`
on every other value, none of which owns one of the keys read by the code. -/
def get (v : Json) (k : String) : Option Json :=
  match v with
  | obj kvs => kvs.foldl (fun acc kv => if kv.1 = k then some kv.2 else acc) none
  | _ => none

/-- The operator `a ?? b` with `undefined` as `none`: `b` when `a` is
`undefined` or `null`. -/
def orElse (a : Option Json) (b : Json) : Json :=
  match a with
  | none => b
  | some null => b
  | some v => v

/-- JavaScript truthiness of a JSON value. -/
def truthy : Json → Bool
  | null => false
  | bool b => b
  | num n => n != 0
  | str s => s != ""
  | arr _ => true
  | obj _ => true

/-- The test `Array.isArray(v)` followed by the use of the array. -/
def asArray? : Option Json → Option (List Json)
  | some (arr xs) => some xs
  | _ => none

/-- The test `typeof v === "string"`. -/
def isString : Option Json → Bool
  | some (str _) => true
  | _ => false

end Json

/-- The two built-ins the code calls: `parse` is `JSON.parse` (`none` when it
throws a SyntaxError), `stringify` is `JSON.stringify` on a value that is
not `undefined`. -/
structure JsonLib where
  parse : String → Option Json
  stringify : Json → String

/-! ## server/db.js -/

/-- One row of the table `documents`; every column but `id` may hold NULL. -/
structure Row where
  id : Int
  name : Option String
  timestamp : Option String
  status : Option String
  summary : Option String
  topics : Option String
  docType : Option String
  tokens : Option String
  error : Option String
  deriving DecidableEq, Repr

/-- The table `documents`: its rows and the AUTOINCREMENT counter
(`sqlite_sequence.seq`, the largest id the table ever held). A table
created without the `error` column is read with NULL in it, which is what
`ALTER TABLE documents ADD COLUMN error TEXT` gives every existing row. -/
structure Store where
  rows : List Row
  seq : Int
  deriving DecidableEq, Repr

/-- Reason written by the startup cleanup. -/
def crashMessage : String := "Unfinished processing task (server restart or crash)"

/-- Startup cleanup on one row:
`UPDATE documents SET status = 'Error', error = '...' WHERE status = 'Processing'`. -/
def cleanupRow (r : Row) : Row :=
  if r.status = some "Processing" then
    { r with status := some "Error", error := some crashMessage }
  else r

/-- The subquery `SELECT id FROM documents ORDER BY id DESC LIMIT 100`. -/
def latestIds (rows : List Row) : List Int :=
  ((rows.map (fun r => r.id)).insertionSort (fun a b => b ≤ a)).take 100

/-- The statement `DELETE FROM documents WHERE id NOT IN (...)`: the rows
whose id the subquery returns stay. -/
def trimRows (rows : List Row) : List Row :=
  rows.filter (fun r => decide (r.id ∈ latestIds rows))

/-- Module initialisation of `db.js` on an existing table: cleanup of the
abandoned tasks, then the trim to the latest 100 rows. -/
def initStore (st : Store) : Store :=
  { st with rows := trimRows (st.rows.map cleanupRow) }

/-- Largest rowid of the table, `none` when it is empty. -/
def maxRowid : List Row → Option Int
  | [] => none
  | r :: rs =>
    match maxRowid rs with
    | none => some r.id
    | some m => some (max r.id m)

/-- Rowid an AUTOINCREMENT insert picks: one more than the largest rowid of
the table (1 for an empty table), and at least one more than the counter. -/
def nextRowid (st : Store) : Int :=
  max (match maxRowid st.rows with
       | none => 1
       | some m => m + 1) (st.seq + 1)

/-- The argument of `insertDocument`. -/
structure NewDoc where
  name : String
  timestamp : String
  status : String
  deriving DecidableEq, Repr

/-- Largest rowid of SQLite, 2^63 - 1. -/
def maxRowidValue : Int := 9223372036854775807

/-- The table can take no new AUTOINCREMENT row: the counter or the largest
rowid of the table is 2^63 - 1. -/
def tableFull (st : Store) : Bool :=
  decide (st.seq = maxRowidValue) ||
    (match maxRowid st.rows with
     | some m => decide (maxRowidValue ≤ m)
     | none => false)

/-- Value of the double nearest to a natural number, ties going to the even
mantissa: the number itself up to 2^53, its rounding to 53 significant
bits above. -/
def nearestDouble (a : Nat) : Nat :=
  if a ≤ 2 ^ 53 then a
  else
    let s := Nat.log2 a - 52
    let q := a / 2 ^ s
    let r := a % 2 ^ s
    (if 2 ^ (s - 1) < r ∨ (r = 2 ^ (s - 1) ∧ q % 2 = 1) then q + 1 else q) * 2 ^ s

/-- The 64-bit integer `lastInsertRowid` as the JavaScript number the driver
hands back. -/
def toDouble (n : Int) : Int :=
  if n < 0 then -(nearestDouble n.natAbs : Int) else (nearestDouble n.natAbs : Int)

/-- The row an insert writes. -/
def insertedRow (newId : Int) (doc : NewDoc) : Row :=
  { id := newId, name := some doc.name, timestamp := some doc.timestamp,
    status := some doc.status, summary := none, topics := none,
    docType := none, tokens := none, error := none }

/-- The helper `insertDocument(doc)`: `INSERT INTO documents (name, timestamp,
status) VALUES (?, ?, ?)`, returning `lastInsertRowid` (a JavaScript
number) and the new table; SQLITE_FULL is thrown when the key is used up. -/
def insertDocument (doc : NewDoc) (st : Store) : Except String (Int × Store) :=
  if tableFull st then .error "database or disk is full"
  else
    .ok (toDouble (nextRowid st),
         { rows := st.rows ++ [insertedRow (nextRowid st) doc], seq := nextRowid st })

/-- The table after a call of `insertDocument`, unchanged when the call throws. -/
def afterInsert (doc : NewDoc) (st : Store) : Store :=
  match insertDocument doc st with
  | .ok out => out.2
  | .error _ => st

/-- The argument `fields` of `updateDocument`. The text columns take a string
or nothing (`undefined` and `null` both end as NULL through `?? null`);
`topics` and `tokens` take any JSON value or nothing. -/
structure Fields where
  status : String
  summary : Option String := none
  topics : Option Json := none
  docType : Option String := none
  tokens : Option Json := none
  error : Option String := none

/-- The assignment of `updateDocument` on one row: the six columns are
overwritten where `id` matches; `topics` and `tokens` are stored as
`JSON.stringify(fields.topics ?? null)` and `JSON.stringify(fields.tokens ?? null)`. -/
def updateRow (lib : JsonLib) (id : Int) (fields : Fields) (r : Row) : Row :=
  if r.id = id then
    { r with status := some fields.status,
             summary := fields.summary,
             topics := some (lib.stringify (fields.topics.getD Json.null)),
             docType := fields.docType,
             tokens := some (lib.stringify (fields.tokens.getD Json.null)),
             error := fields.error }
  else r

/-- The helper `updateDocument(id, fields)`: `UPDATE documents SET ... WHERE id = ?`;
nothing changes when no row has that id. -/
def updateDocument (lib : JsonLib) (id : Int) (fields : Fields) (st : Store) : Store :=
  { st with rows := st.rows.map (updateRow lib id fields) }

/-- The helper `getLatestDocumentByName(name)`:
`SELECT * FROM documents WHERE name = ? ORDER BY id DESC LIMIT 1`, the row
as it is stored (`undefined` as `none`). -/
def getLatestDocumentByName (name : String) (st : Store) : Option Row :=
  ((st.rows.filter (fun r => decide (r.name = some name))).insertionSort
    (fun a b => b.id ≤ a.id)).head?

/-- A record as `getAllDocuments` returns it: the row with `topics` and
`tokens` replaced by values. -/
structure Doc where
  id : Int
  name : Option String
  timestamp : Option String
  status : Option String
  summary : Option String
  topics : Json
  docType : Option String
  tokens : Json
  error : Option String

/-- The SyntaxError `JSON.parse(text)` throws on a text it rejects. -/
structure ParseFailure where
  text : String
  deriving DecidableEq, Repr

/-- The expression `text ? JSON.parse(text) : dflt` on a column: the default
for NULL and for the empty text, the parsed value otherwise, the
exception of `JSON.parse` when the text does not parse. -/
def parseColumn (lib : JsonLib) (text : Option String) (dflt : Json) :
    Except ParseFailure Json :=
  match text with
  | none => .ok dflt
  | some s =>
    if s = "" then .ok dflt
    else
      match lib.parse s with
      | some v => .ok v
      | none => .error { text := s }

/-- The callback of `docs.map` in `getAllDocuments`. -/
def decodeRow (lib : JsonLib) (r : Row) : Except ParseFailure Doc :=
  match parseColumn lib r.topics (Json.arr []) with
  | .error e => .error e
  | .ok topics =>
    match parseColumn lib r.tokens Json.null with
    | .error e => .error e
    | .ok tokens =>
      .ok { id := r.id, name := r.name, timestamp := r.timestamp, status := r.status,
            summary := r.summary, topics := topics, docType := r.docType,
            tokens := tokens, error := r.error }

/-- The call `docs.map(...)` of `getAllDocuments`: it throws as soon as one row does. -/
def decodeRows (lib : JsonLib) : List Row → Except ParseFailure (List Doc)
  | [] => .ok []
  | r :: rs =>
    match decodeRow lib r with
    | .error e => .error e
    | .ok d =>
      match decodeRows lib rs with
      | .error e => .error e
      | .ok ds => .ok (d :: ds)

/-- The helper `getAllDocuments()`: `SELECT * FROM documents` mapped through
`decodeRow`. -/
def getAllDocuments (lib : JsonLib) (st : Store) : Except ParseFailure (List Doc) :=
  decodeRows lib st.rows

/-- The route `GET /documents`: status code with either the records or the
error whose message the body carries. -/
def documentsRoute (lib : JsonLib) (st : Store) :
    Nat × Except ParseFailure (List Doc) :=
  match getAllDocuments lib st with
  | .ok docs => (200, .ok docs)
  | .error e => (500, .error e)

/-- The column text is one `getAllDocuments` can read: NULL, empty, or a
text `JSON.parse` accepts. -/
def readableText (lib : JsonLib) (text : Option String) : Bool :=
  match text with
  | none => true
  | some s => s == "" || (lib.parse s).isSome

/-- Both serialised columns of every row are readable. -/
def rowsReadable (lib : JsonLib) (rows : List Row) : Bool :=
  rows.all (fun r => readableText lib r.topics && readableText lib r.tokens)

/-! ## A concrete JSON library -/

namespace Json

/-- Lower-case hexadecimal digit of a number below 16. -/
def hexChar (n : Nat) : Char :=
  if n < 10 then Char.ofNat (48 + n) else Char.ofNat (87 + n)

/-- Escape of one character inside a JSON string, as `JSON.stringify` writes it. -/
def escapeChar (c : Char) : List Char :=
  if c = '"' then ['\\', '"']
  else if c = '\\' then ['\\', '\\']
  else if c = '\n' then ['\\', 'n']
  else if c = '\r' then ['\\', 'r']
  else if c = '\t' then ['\\', 't']
  else if c.toNat = 8 then ['\\', 'b']
  else if c.toNat = 12 then ['\\', 'f']
  else if c.toNat < 32 then
    ['\\', 'u', '0', '0', hexChar (c.toNat / 16), hexChar (c.toNat % 16)]
  else [c]

/-- A string between double quotes with its characters escaped. -/
def quote (s : String) : String :=
  String.mk ('"' :: (s.data.flatMap escapeChar ++ ['"']))

mutual
/-- Serialisation of a value, without white space, keys in the order held. -/
def stringify : Json → String
  | null => "null"
  | bool true => "true"
  | bool false => "false"
  | num n => toString n
  | str s => quote s
  | arr xs => "[" ++ stringifyList xs ++ "]"
  | obj kvs => "\x7b" ++ stringifyFields kvs ++ "\x7d"
/-- Elements of an array separated by commas. -/
def stringifyList : List Json → String
  | [] => ""
  | [x] => stringify x
  | x :: y :: xs => stringify x ++ "," ++ stringifyList (y :: xs)
/-- Members of an object separated by commas. -/
def stringifyFields : List (String × Json) → String
  | [] => ""
  | [(k, v)] => quote k ++ ":" ++ stringify v
  | (k, v) :: kv :: rest => quote k ++ ":" ++ stringify v ++ "," ++ stringifyFields (kv :: rest)
end

/-- JSON white space is dropped from the front. -/
def skipWs : List Char → List Char
  | [] => []
  | c :: cs => if c = ' ' ∨ c = '\n' ∨ c = '\r' ∨ c = '\t' then skipWs cs else c :: cs

/-- Value of a hexadecimal digit. -/
def hexValue? (c : Char) : Option Nat :=
  if '0' ≤ c ∧ c ≤ '9' then some (c.toNat - 48)
  else if 'a' ≤ c ∧ c ≤ 'f' then some (c.toNat - 87)
  else if 'A' ≤ c ∧ c ≤ 'F' then some (c.toNat - 55)
  else none

/-- The character of `\uXXXX`; `none` for a malformed escape and for a
surrogate code unit, which a string of this model cannot hold. -/
def unicodeEscape? (a b c d : Char) : Option Char :=
  match hexValue? a, hexValue? b, hexValue? c, hexValue? d with
  | some x, some y, some z, some w =>
    let n := ((x * 16 + y) * 16 + z) * 16 + w
    if 0xD800 ≤ n ∧ n ≤ 0xDFFF then none else some (Char.ofNat n)
  | _, _, _, _ => none

/-- Rest of a string literal after its opening quote: the string read (the
characters so far are in `acc`, last one first) and what follows the
closing quote. -/
def parseStringBody : List Char → List Char → Option (String × List Char)
  | [], _ => none
  | c :: rest, acc =>
    if c = '"' then some (String.mk acc.reverse, rest)
    else if c = '\\' then
      match rest with
      | 'u' :: h1 :: h2 :: h3 :: h4 :: rest2 =>
        match unicodeEscape? h1 h2 h3 h4 with
        | some u => parseStringBody rest2 (u :: acc)
        | none => none
      | e :: rest1 =>
        if e = '"' then parseStringBody rest1 ('"' :: acc)
        else if e = '\\' then parseStringBody rest1 ('\\' :: acc)
        else if e = '/' then parseStringBody rest1 ('/' :: acc)
        else if e = 'b' then parseStringBody rest1 (Char.ofNat 8 :: acc)
        else if e = 'f' then parseStringBody rest1 (Char.ofNat 12 :: acc)
        else if e = 'n' then parseStringBody rest1 ('\n' :: acc)
        else if e = 'r' then parseStringBody rest1 ('\r' :: acc)
        else if e = 't' then parseStringBody rest1 ('\t' :: acc)
        else none
      | [] => none
    else if c.toNat < 32 then none
    else parseStringBody rest (c :: acc)

/-- Number read from decimal digits, first digit first. -/
def digitsValue (ds : List Char) : Nat :=
  ds.foldl (fun n c => 10 * n + (c.toNat - 48)) 0

/-- An integer numeral, `-?(0|[1-9][0-9]*)`. A fraction or an exponent after
it is not read by this library (the number type holds integers only). -/
def parseNumber (cs : List Char) : Option (Json × List Char) :=
  let neg := cs.head? = some '-'
  let body := if neg then cs.tail else cs
  let ds := body.takeWhile Char.isDigit
  let rest := body.dropWhile Char.isDigit
  if ds = [] then none
  else if ds.head? = some '0' ∧ ds.length ≠ 1 then none
  else if rest.head? = some '.' ∨ rest.head? = some 'e' ∨ rest.head? = some 'E' then none
  else some (num (if neg then -(digitsValue ds : Int) else (digitsValue ds : Int)), rest)

mutual
/-- One value at the front of the input, after white space; `fuel` bounds
the depth of the recursion. -/
def parseValue : Nat → List Char → Option (Json × List Char)
  | 0, _ => none
  | fuel + 1, cs =>
    match skipWs cs with
    | 'n' :: 'u' :: 'l' :: 'l' :: rest => some (null, rest)
    | 't' :: 'r' :: 'u' :: 'e' :: rest => some (bool true, rest)
    | 'f' :: 'a' :: 'l' :: 's' :: 'e' :: rest => some (bool false, rest)
    | '"' :: rest =>
      match parseStringBody rest [] with
      | some (s, rest1) => some (str s, rest1)
      | none => none
    | '[' :: rest =>
      match skipWs rest with
      | ']' :: rest1 => some (arr [], rest1)
      | rest1 => parseElements fuel rest1 []
    | '\x7b' :: rest =>
      match skipWs rest with
      | '\x7d' :: rest1 => some (obj [], rest1)
      | rest1 => parseMembers fuel rest1 []
    | other => parseNumber other
/-- Elements of an array after `[` or after a comma. -/
def parseElements : Nat → List Char → List Json → Option (Json × List Char)
  | 0, _, _ => none
  | fuel + 1, cs, acc =>
    match parseValue fuel cs with
    | none => none
    | some (v, rest) =>
      match skipWs rest with
      | ',' :: rest1 => parseElements fuel rest1 (v :: acc)
      | ']' :: rest1 => some (arr (v :: acc).reverse, rest1)
      | _ => none
/-- Members of an object after the opening brace or after a comma. -/
def parseMembers : Nat → List Char → List (String × Json) → Option (Json × List Char)
  | 0, _, _ => none
  | fuel + 1, cs, acc =>
    match skipWs cs with
    | '"' :: rest =>
      match parseStringBody rest [] with
      | none => none
      | some (k, rest1) =>
        match skipWs rest1 with
        | ':' :: rest2 =>
          match parseValue fuel rest2 with
          | none => none
          | some (v, rest3) =>
            match skipWs rest3 with
            | ',' :: rest4 => parseMembers fuel rest4 ((k, v) :: acc)
            | '\x7d' :: rest4 => some (obj ((k, v) :: acc).reverse, rest4)
            | _ => none
        | _ => none
    | _ => none
end

/-- A whole text as one JSON value, white space allowed around it. -/
def parse (text : String) : Option Json :=
  match parseValue (2 * text.data.length + 2) text.data with
  | some (v, rest) => if skipWs rest = [] then some v else none
  | none => none

end Json

/-- A concrete library: JSON texts whose numerals are integers and whose
strings hold no surrogate escape. -/
def jsonLib : JsonLib := { parse := Json.parse, stringify := Json.stringify }

/-! ## server/index.js -/

/-- The uploaded file `req.files.file`, by its name. -/
structure Upload where
  name : String
  deriving DecidableEq, Repr

/-- What `client.responses.create` resolves to: `output_text` and `usage`,
each possibly `undefined`. -/
structure ApiResponse where
  output_text : Option String
  usage : Option Json

/-- Everything the handler gets from outside during one request: the clock and
the outcome of each call to the file system and to the external service, an
error carrying the `message` of what was thrown. -/
structure Env where
  now : String
  mv : Except String Unit
  filesCreate : Except String String
  responsesCreate : String → Except String ApiResponse
  unlink : Except String Unit

/-- Body of the 200 answer of `POST /analyze`; a field that is `undefined` is
left out by `res.json`. -/
structure AnalyzeBody where
  id : Int
  summary : Option Json
  topics : Option Json
  docType : Option Json
  tokens : Option Json

/-- Answer of `POST /analyze`: the 200 body, or a status code with
the `error` text of the body. -/
inductive HttpResponse where
  | success (body : AnalyzeBody)
  | failure (code : Nat) (error : String)

/-- The `catch` block of the handler: status 500 with
`err.message || "Unknown error"`. It writes nothing to the store. -/
def catchBlock (message : String) : HttpResponse :=
  .failure 500 (if message = "" then "Unknown error" else message)

/-- The object built when `JSON.parse(text)` throws. -/
def fallbackData (text : String) : Json :=
  .obj [("summary", .str text), ("key_topics", .arr []), ("document_type", .str "Unknown")]

/-- A value handed to `updateDocument` for a text column: a string or null.
`none` for any other value (number, boolean, array, object): what the
SQLite driver does with such a parameter is outside this model. -/
def textField : Json → Option (Option String)
  | .null => some none
  | .str s => some (some s)
  | _ => none

/-- Message of the TypeError thrown by `data.summary` when `data` is null. -/
def nullReadMessage : String := "Cannot read properties of null (reading \x27summary\x27)"

/-- Steps 3 to 5 of the handler, after the temporary file is deleted:
extraction of the result, update of the record, answer. `none` when the
extracted `summary` or `document_type` is neither a string nor null
(see `textField`). -/
def finishAnalyze (lib : JsonLib) (docId : Int) (response : ApiResponse) (st : Store) :
    Option (Store × HttpResponse) :=
  let text := response.output_text.getD ""
  let data := match lib.parse text with
    | some v => v
    | none => fallbackData text
  match data with
  | .null => some (st, catchBlock nullReadMessage)
  | _ =>
    match textField (Json.orElse (data.get "summary") .null),
          textField (Json.orElse (data.get "document_type") (.str "")) with
    | some summary, some docType =>
      some (updateDocument lib docId
              { status := "Complete",
                summary := summary,
                topics := some (Json.orElse (data.get "key_topics") (.arr [])),
                docType := docType,
                tokens := some (Json.orElse response.usage .null),
                error := none } st,
            .success { id := docId,
                       summary := data.get "summary",
                       topics := data.get "key_topics",
                       docType := data.get "document_type",
                       tokens := response.usage })
    | _, _ => none

/-- The handler of `POST /analyze`; `file` is `req.files?.file`. The store it
returns is the table when the handler finishes. -/
def analyze (lib : JsonLib) (file : Option Upload) (env : Env) (st : Store) :
    Option (Store × HttpResponse) :=
  match file with
  | none => some (st, .failure 400 "No file uploaded")
  | some uploaded =>
    match env.mv with
    | .error e => some (st, catchBlock e)
    | .ok _ =>
      match insertDocument
        { name := uploaded.name, timestamp := env.now, status := "Processing" } st with
      | .error e => some (st, catchBlock e)
      | .ok inserted =>
        match env.filesCreate with
        | .error e => some (inserted.2, catchBlock e)
        | .ok fileId =>
          match env.responsesCreate fileId with
          | .error e => some (inserted.2, catchBlock e)
          | .ok response =>
            match env.unlink with
            | .error e => some (inserted.2, catchBlock e)
            | .ok _ => finishAnalyze lib inserted.1 response inserted.2

/-- The row of a given id, when the table has one. -/
def findRow (id : Int) (st : Store) : Option Row :=
  st.rows.find? (fun r => r.id == id)

/-! ## src/components/Hero.jsx -/

/-- The `file` property of a list entry: nothing (`null`), a `File` picked in
the browser (by its name), or whatever value a backend record carried. -/
inductive FileSlot where
  | empty
  | picked (fileName : String)
  | backend (v : Json)

/-- Truthiness of the `file` property; a `File` object is truthy. -/
def FileSlot.truthy : FileSlot → Bool
  | .empty => false
  | .picked _ => true
  | .backend v => v.truthy

/-- An entry of the `documents` list. `ref` is the identity of the object
(`===` on two entries compares it); objects are never mutated, each
object literal of the source allocates a new one. `raw` is `__raw`. -/
structure Entry where
  ref : Nat
  id : Json
  name : Json
  timestamp : Json
  status : Json
  summary : Json
  topics : List Json
  docType : Json
  tokens : Json
  file : FileSlot
  raw : Option Json

/-- State of the component: `documents`, `activeDoc` and the next free
object identity. -/
structure Hero where
  documents : List Entry
  activeDoc : Option Entry
  nextRef : Nat

/-- The test `v === s` of a value against a string literal. -/
def Json.isStr (v : Json) (s : String) : Bool :=
  match v with
  | .str t => t == s
  | _ => false

/-- The operator `a ?? b` between two property reads. -/
def coalesce (a b : Option Json) : Option Json :=
  match a with
  | none => b
  | some .null => b
  | some v => some v

/-- The helper `normalizeDocFromBackend(doc)`, the new object getting identity
`ref`; `now` is `new Date().toLocaleString()`. Reading a property of
`null` throws. -/
def normalizeDocFromBackend (ref : Nat) (now : String) (doc : Json) : Except String Entry :=
  match doc with
  | .null => .error "Cannot read properties of null (reading \x27topics\x27)"
  | _ =>
    .ok { ref := ref,
          id := Json.orElse (doc.get "id") .null,
          name := Json.orElse (coalesce (doc.get "name") (doc.get "filename")) (.str "Untitled"),
          timestamp := Json.orElse (doc.get "timestamp") (.str now),
          status := Json.orElse (doc.get "status") (.str "Complete"),
          summary := if Json.isString (doc.get "summary") then (doc.get "summary").getD .null
                     else .null,
          topics := match Json.asArray? (doc.get "topics") with
            | some xs => xs
            | none =>
              match Json.asArray? (doc.get "key_topics") with
              | some ys => ys
              | none => [],
          docType := Json.orElse (coalesce (doc.get "docType") (doc.get "document_type")) (.str ""),
          tokens := Json.orElse (doc.get "tokens") .null,
          file := match doc.get "file" with
            | none => .empty
            | some .null => .empty
            | some v => .backend v,
          raw := some doc }

/-- The helper `replaceAt(arr, index, newItem)` for an index that is not negative:
`[...arr.slice(0, index), newItem, ...arr.slice(index + 1)]`. -/
def replaceAt {α : Type} (arr : List α) (index : Nat) (newItem : α) : List α :=
  arr.take index ++ [newItem] ++ arr.drop (index + 1)

/-- The `json.map((doc) => normalizeDocFromBackend(doc))` of `loadDocs`, the
objects numbered from `ref` on. -/
def normalizeAll (now : String) : Nat → List Json → Except String (List Entry)
  | _, [] => .ok []
  | ref, doc :: docs =>
    match normalizeDocFromBackend ref now doc with
    | .error e => .error e
    | .ok entry =>
      match normalizeAll now (ref + 1) docs with
      | .error e => .error e
      | .ok entries => .ok (entry :: entries)

/-- The effect of `loadDocs` once the fetch settled: `body` is the parsed body
of `GET /documents`, `none` when `fetch` or `res.json()` threw. Any
exception is caught and leaves the state as it is. -/
def loadDocs (now : String) (body : Option Json) (st : Hero) : Hero :=
  match body with
  | none => st
  | some (.arr docs) =>
    match normalizeAll now st.nextRef docs with
    | .error _ => st
    | .ok normalized =>
      { st with documents := normalized ++ st.documents,
                nextRef := st.nextRef + docs.length }
  | some _ => st

/-- The handler `handleFileChange`: one `Pending` entry per selected file, appended. -/
def handleFileChange (now : String) (fileNames : List String) (st : Hero) : Hero :=
  { st with
    documents := st.documents ++
      (List.range fileNames.length).zipWith
        (fun i n =>
          { ref := st.nextRef + i, id := .null, name := .str n, timestamp := .str now,
            status := .str "Pending", summary := .null, topics := [], docType := .str "",
            tokens := .null, file := .picked n, raw := none })
        fileNames,
    nextRef := st.nextRef + fileNames.length }

/-- The test `activeDoc && activeDoc === target`. -/
def isActive (activeDoc : Option Entry) (target : Entry) : Bool :=
  match activeDoc with
  | some a => a.ref == target.ref
  | none => false

/-- The variables of `analyzeSingleFile` that its closure holds across the
`await`; one value of this type stands for one request sent to the gateway. -/
structure InFlight where
  index : Nat
  target : Entry
  activeDoc : Option Entry

/-- The function `analyzeSingleFile(index)` up to its `fetch`: the guards, the
`Processing` mark, and the request (`none` when a guard returned). -/
def analyzeSingleFile (index : Option Int) (st : Hero) : Hero × Option InFlight :=
  match index with
  | none => (st, none)
  | some i =>
    if i < 0 ∨ (st.documents.length : Int) ≤ i then (st, none)
    else
      match st.documents[i.toNat]? with
      | none => (st, none)
      | some target =>
        if !target.file.truthy then (st, none)
        else
          let updatedDoc := { target with ref := st.nextRef, status := .str "Processing" }
          ({ documents := replaceAt st.documents i.toNat updatedDoc,
             activeDoc := if isActive st.activeDoc target then some updatedDoc
                          else st.activeDoc,
             nextRef := st.nextRef + 1 },
           some { index := i.toNat, target := target, activeDoc := st.activeDoc })

/-- How the request of `analyzeSingleFile` ends: `fetch` throws, the body is
not JSON, or a response with `res.ok` and its parsed body arrives. -/
inductive FetchOutcome where
  | networkError
  | nonJson
  | response (ok : Bool) (json : Json)

/-- The object the closure puts in the list when the request ends:
`completeDoc`, or one of the two `failedDoc`. -/
def terminalDoc (ref : Nat) (target : Entry) : FetchOutcome → Entry
  | .networkError =>
    { target with ref := ref, status := .str "Failed", summary := .str "Error analyzing file." }
  | .nonJson =>
    { target with ref := ref, status := .str "Failed", summary := .str "Error analyzing file." }
  | .response false json =>
    { target with ref := ref, status := .str "Failed",
                  summary := Json.orElse (json.get "error") (.str "Analysis failed") }
  | .response true .null =>
    { target with ref := ref, status := .str "Failed", summary := .str "Error analyzing file." }
  | .response true json =>
    { target with
      ref := ref,
      id := Json.orElse (json.get "id") .null,
      status := .str "Complete",
      summary := if Json.isString (json.get "summary") then (json.get "summary").getD .null
                 else .null,
      topics := match Json.asArray? (json.get "topics") with
        | some xs => xs
        | none =>
          match Json.asArray? (json.get "key_topics") with
          | some ys => ys
          | none => [],
      docType := Json.orElse (coalesce (json.get "docType") (json.get "document_type")) (.str ""),
      tokens := Json.orElse (json.get "tokens") .null }

/-- The rest of `analyzeSingleFile` after the `await`: the terminal update
`setDocuments((prev) => replaceAt(prev, index, doc))` on the list of that
moment, and `setActiveDoc(doc)` when the captured `activeDoc` is the target. -/
def analyzeSettled (c : InFlight) (outcome : FetchOutcome) (st : Hero) : Hero :=
  let doc := terminalDoc st.nextRef c.target outcome
  { documents := replaceAt st.documents c.index doc,
    activeDoc := if isActive c.activeDoc c.target then some doc else st.activeDoc,
    nextRef := st.nextRef + 1 }

/-- Condition under which the list renders the Analyze button of an entry:
`doc.file && doc.status !== "Processing" && doc.status !== "Complete"`. -/
def analyzeButtonShown (doc : Entry) : Bool :=
  doc.file.truthy && !doc.status.isStr "Processing" && !doc.status.isStr "Complete"

/-- The Analyze buttons of the rendered list, one place per entry in list
order (`documents.map((doc, i) => ...)`): the index the button hands to
`analyzeSingleFile`, `none` where no button is rendered. -/
def analyzeButtons (documents : List Entry) : List (Option Nat) :=
  documents.enum.map (fun p => if analyzeButtonShown p.2 then some p.1 else none)

/-- Colour class of the status line of an entry. -/
def statusClass (doc : Entry) : String :=
  if doc.status.isStr "Pending" then "text-yellow-300"
  else if doc.status.isStr "Processing" then "text-blue-300"
  else if doc.status.isStr "Complete" then "text-green-300"
  else "text-red-400"

/-! ## Sequences of store calls and sample inputs -/

/-- One call to the store after its initialisation. -/
inductive StoreOp where
  | insert (doc : NewDoc)
  | update (id : Int) (fields : Fields)

/-- Effect of one call on the table. -/
def applyOp (lib : JsonLib) (st : Store) : StoreOp → Store
  | .insert doc => afterInsert doc st
  | .update id fields => updateDocument lib id fields st

/-- Effect of a sequence of calls, first call first. -/
def applyOps (lib : JsonLib) (st : Store) (ops : List StoreOp) : Store :=
  ops.foldl (applyOp lib) st

/-- Number of `insertDocument` calls in a sequence. -/
def countInserts (ops : List StoreOp) : Nat :=
  (ops.filter (fun op => match op with
    | .insert _ => true
    | .update _ _ => false)).length

/-- The ids written by the `insertDocument` calls of a sequence that did not
throw, in call order. -/
def insertedIds (lib : JsonLib) : Store → List StoreOp → List Int
  | _, [] => []
  | st, op :: ops =>
    (match op with
     | .insert _ => if tableFull st then [] else [nextRowid st]
     | .update _ _ => []) ++ insertedIds lib (applyOp lib st op) ops

/-- Every update of the sequence stores texts `getAllDocuments` can read. -/
def opsReadable (lib : JsonLib) (ops : List StoreOp) : Bool :=
  ops.all (fun op =>
    match op with
    | .insert _ => true
    | .update _ fields =>
      readableText lib (some (lib.stringify (fields.topics.getD Json.null))) &&
      readableText lib (some (lib.stringify (fields.tokens.getD Json.null))))

/-- A table that was never written. -/
def emptyStore : Store := { rows := [], seq := 0 }

/-- Row number `i` of the sample table: ids from 1 on, every third row left
in `Processing`. -/
def sampleRow (i : Nat) : Row :=
  { id := (i : Int) + 1, name := some "a.pdf", timestamp := some "2024-01-01T00:00:00.000Z",
    status := if i % 3 = 0 then some "Processing" else some "Complete",
    summary := none, topics := none, docType := none, tokens := none, error := none }

/-- A table of 102 rows found at start-up. -/
def crowdedStore : Store := { rows := (List.range 102).map sampleRow, seq := 102 }

/-- The record created by the sample calls. -/
def sampleDoc : NewDoc :=
  { name := "a.pdf", timestamp := "2024-01-01T00:00:00.000Z", status := "Processing" }

/-- The topics of the sample update. -/
def sampleTopics : Json := .arr [.str "x", .str "y"]

/-- The usage object of the sample update. -/
def sampleUsage : Json :=
  .obj [("input_tokens", .num 10), ("output_tokens", .num 5), ("total_tokens", .num 15)]

/-- The fields of the sample update. -/
def sampleFields : Fields :=
  { status := "Complete", topics := some sampleTopics, tokens := some sampleUsage }

/-- One insert followed by the update of the inserted record. -/
def sampleOps : List StoreOp := [.insert sampleDoc, .update 103 sampleFields]

/-- An initialised empty table, one insert, then the sample update of the
inserted record. -/
def sampleUpdated : Store :=
  updateDocument jsonLib 1 sampleFields (afterInsert sampleDoc (initStore emptyStore))

/-- The one row of `sampleUpdated`. -/
def sampleUpdatedRow : Row :=
  { id := 1, name := some "a.pdf", timestamp := some "2024-01-01T00:00:00.000Z",
    status := some "Complete", summary := none, topics := some "[\"x\",\"y\"]",
    docType := none,
    tokens := some "\x7b\"input_tokens\":10,\"output_tokens\":5,\"total_tokens\":15\x7d",
    error := none }

/-- An initialised empty table after one insert. -/
def sampleInserted : Store := afterInsert sampleDoc (initStore emptyStore)

/-- A table with a row never updated (both texts NULL), a row whose two
texts are empty, and the updated sample row. -/
def mixedStore : Store :=
  { rows := [{ id := 1, name := some "n.pdf", timestamp := some "2024-01-01T00:00:00.000Z",
               status := some "Error", summary := none, topics := none,
               docType := none, tokens := none, error := some crashMessage },
             { id := 2, name := some "e.pdf", timestamp := some "2024-01-01T00:00:00.000Z",
               status := some "Complete", summary := some "A memo.", topics := some "",
               docType := some "Memo", tokens := some "", error := none },
             { sampleUpdatedRow with id := 3 }],
    seq := 3 }

/-- A table with one readable row and one row whose topics text is not JSON. -/
def halfReadableStore : Store :=
  { rows := [{ id := 1, name := some "a.pdf", timestamp := some "2024-01-01T00:00:00.000Z",
               status := some "Processing", summary := none, topics := none,
               docType := none, tokens := none, error := none },
             { id := 2, name := some "b.pdf", timestamp := some "2024-01-01T00:00:00.000Z",
               status := some "Complete", summary := none, topics := some "not json",
               docType := none, tokens := none, error := none }],
    seq := 2 }

/-- A table with one row whose stored topics text is not JSON. -/
def malformedStore : Store :=
  { rows := [{ id := 1, name := some "a.pdf", timestamp := some "2024-01-01T00:00:00.000Z",
               status := some "Complete", summary := none, topics := some "not json",
               docType := none, tokens := none, error := none }],
    seq := 1 }

/-- An initialised empty table, one insert, then an update that gives the
status only (`topics` and `tokens` omitted). -/
def statusOnlyUpdated : Store :=
  updateDocument jsonLib 1 { status := "Complete" } (afterInsert sampleDoc emptyStore)

/-- The uploaded file of the sample requests. -/
def sampleUpload : Upload := { name := "a.pdf" }

/-- A request whose external analysis call fails with "quota exceeded". -/
def quotaEnv : Env :=
  { now := "2024-01-01T00:00:00.000Z", mv := .ok (), filesCreate := .ok "file-1",
    responsesCreate := fun _ => .error "quota exceeded", unlink := .ok () }

/-- A request whose external analysis call returns the text given. -/
def outputEnv (text : String) : Env :=
  { now := "2024-01-01T00:00:00.000Z", mv := .ok (), filesCreate := .ok "file-1",
    responsesCreate := fun _ => .ok { output_text := some text, usage := some sampleUsage },
    unlink := .ok () }

/-- A request whose external analysis call returns plain text and whose
temporary file is gone when the handler removes it. -/
def unlinkEnv : Env :=
  { now := "2024-01-01T00:00:00.000Z", mv := .ok (), filesCreate := .ok "file-1",
    responsesCreate := fun _ =>
      .ok { output_text := some "A short memo.", usage := some sampleUsage },
    unlink := .error "ENOENT: no such file or directory, unlink \x27uploads/a.pdf\x27" }

/-- Status code and error text of a failure answer. -/
def HttpResponse.failure? : HttpResponse → Option (Nat × String)
  | .failure code error => some (code, error)
  | .success _ => none

/-- Id, status and error of every row of the table. -/
def Store.statuses (st : Store) : List (Int × Option String × Option String) :=
  st.rows.map (fun r => (r.id, r.status, r.error))

/-- A nullable text column as `res.json` writes it. -/
def textJson : Option String → Json
  | some s => .str s
  | none => .null

/-- The element `res.json(getAllDocuments())` writes for one record. -/
def Doc.toJson (d : Doc) : Json :=
  .obj [("id", .num d.id), ("name", textJson d.name), ("timestamp", textJson d.timestamp),
        ("status", textJson d.status), ("summary", textJson d.summary),
        ("topics", d.topics), ("docType", textJson d.docType), ("tokens", d.tokens),
        ("error", textJson d.error)]

/-- A stored record of a failed analysis, as the start-up cleanup leaves it. -/
def errorRecord : Doc :=
  { id := 7, name := some "b.pdf", timestamp := some "2024-01-01T00:00:00.000Z",
    status := some "Error", summary := none, topics := .arr [], docType := none,
    tokens := .null, error := some crashMessage }

/-- A stored record of a finished analysis. -/
def completeRecord : Doc :=
  { id := 7, name := some "b.pdf", timestamp := some "2024-01-01T00:00:00.000Z",
    status := some "Complete", summary := some "A memo.", topics := .arr [.str "x"],
    docType := some "Memo", tokens := .null, error := none }

/-- The text of a value that is a string, the empty text otherwise. -/
def Json.text : Json → String
  | .str s => s
  | _ => ""

/-- Name and status of every entry of a list. -/
def labels (entries : List Entry) : List (String × String) :=
  entries.map (fun e => (e.name.text, e.status.text))

/-- The component before any event. -/
def emptyHero : Hero := { documents := [], activeDoc := none, nextRef := 0 }

/-- The component after the user picked the file "a.pdf". -/
def pickedHero : Hero := handleFileChange "1/1/2024, 12:00:00 AM" ["a.pdf"] emptyHero

/-- The 200 body of `POST /analyze` in the sample run. -/
def sampleAnswer : Json :=
  .obj [("id", .num 8), ("summary", .str "A short memo."), ("topics", .arr []),
        ("docType", .str "Unknown"), ("tokens", sampleUsage)]

/-- The component after "a.pdf" was picked, analysed and answered with a 200:
its one entry is Complete and still holds its file. -/
def completedHero : Hero :=
  match analyzeSingleFile (some 0) pickedHero with
  | (started, some request) => analyzeSettled request (.response true sampleAnswer) started
  | (started, none) => started

/-- The sample run: "a.pdf" is picked and its analysis started; while the
request is in flight `loadDocs` prepends one server record ("b.pdf"); then
the request ends with a 200. The result is the list just before the
terminal update and the list after it. -/
def raceRun : Option (List Entry × List Entry) :=
  match analyzeSingleFile (some 0) pickedHero with
  | (_, none) => none
  | (started, some request) =>
    let loaded := loadDocs "1/1/2024, 12:00:00 AM" (some (.arr [completeRecord.toJson])) started
    some (loaded.documents,
          (analyzeSettled request (.response true sampleAnswer) loaded).documents)

/-! ## Theorems: the store -/

set_option maxRecDepth 100000

theorem cleanupRow_id (r : Row) : (cleanupRow r).id = r.id := by
  unfold cleanupRow
  split <;> rfl

theorem cleanupRow_status_ne (r : Row) : (cleanupRow r).status ≠ some "Processing" := by
  unfold cleanupRow
  split
  · simp
  · assumption

theorem map_cleanupRow_ids (rows : List Row) :
    (rows.map cleanupRow).map (fun r => r.id) = rows.map (fun r => r.id) := by
  simp [List.map_map, Function.comp_def, cleanupRow_id]

theorem latestIds_length (rows : List Row) :
    (latestIds rows).length = min 100 rows.length := by
  simp [latestIds, List.length_insertionSort]

theorem mem_of_mem_latestIds {rows : List Row} {x : Int} (h : x ∈ latestIds rows) :
    x ∈ rows.map (fun r => r.id) := by
  have h1 := List.mem_of_mem_take h
  exact (List.mem_insertionSort _).1 h1

theorem latestIds_nodup {rows : List Row} (h : (rows.map (fun r => r.id)).Nodup) :
    (latestIds rows).Nodup := by
  unfold latestIds
  exact ((List.perm_insertionSort _ _).nodup_iff.2 h).sublist (List.take_sublist _ _)

/-- An id the subquery leaves out is smaller than every id it returns. -/
theorem lt_of_not_mem_latestIds {rows : List Row}
    {a b : Int} (ha : a ∈ latestIds rows) (hb : b ∈ rows.map (fun r => r.id))
    (hnb : b ∉ latestIds rows) : b < a := by
  have hsorted : List.Sorted (fun a b : Int => b ≤ a)
      ((rows.map (fun r => r.id)).insertionSort (fun a b => b ≤ a)) :=
    List.sorted_insertionSort _ _
  have hb1 : b ∈ (rows.map (fun r => r.id)).insertionSort (fun a b => b ≤ a) :=
    (List.mem_insertionSort _).2 hb
  have hb2 : b ∈ ((rows.map (fun r => r.id)).insertionSort (fun a b => b ≤ a)).drop 100 := by
    rw [← List.take_append_drop 100
      ((rows.map (fun r => r.id)).insertionSort (fun a b => b ≤ a))] at hb1
    rcases List.mem_append.1 hb1 with h1 | h1
    · exact absurd h1 hnb
    · exact h1
  have hle : b ≤ a := hsorted.rel_of_mem_take_of_mem_drop ha hb2
  have hne : b ≠ a := fun e => hnb (e ▸ ha)
  omega

theorem trimRows_ids_perm {rows : List Row} (h : (rows.map (fun r => r.id)).Nodup) :
    ((trimRows rows).map (fun r => r.id)).Perm (latestIds rows) := by
  have hnd : ((trimRows rows).map (fun r => r.id)).Nodup :=
    h.sublist ((List.filter_sublist _).map _)
  refine (List.perm_ext_iff_of_nodup hnd (latestIds_nodup h)).2 (fun x => ?_)
  constructor
  · intro hx
    obtain ⟨r, hr, rfl⟩ := List.mem_map.1 hx
    simpa [trimRows] using (List.mem_filter.1 hr).2
  · intro hx
    obtain ⟨r, hr, hrx⟩ := List.mem_map.1 (mem_of_mem_latestIds hx)
    refine List.mem_map.2 ⟨r, ?_, hrx⟩
    simp only [trimRows, List.mem_filter, decide_eq_true_eq]
    exact ⟨hr, by simpa [hrx] using hx⟩

theorem trimRows_length {rows : List Row} (h : (rows.map (fun r => r.id)).Nodup) :
    (trimRows rows).length = min 100 rows.length := by
  have := (trimRows_ids_perm h).length_eq
  simpa [latestIds_length] using this

theorem mem_rows_of_mem_trimRows {rows : List Row} {r : Row} (h : r ∈ trimRows rows) :
    r ∈ rows ∧ r.id ∈ latestIds rows := by
  simpa [trimRows] using h

theorem initStore_length (st : Store)
    (hkey : (st.rows.map (fun r => r.id)).Nodup) :
    (initStore st).rows.length = min 100 st.rows.length := by
  have hkey2 : ((st.rows.map cleanupRow).map (fun r => r.id)).Nodup := by
    rw [map_cleanupRow_ids]; exact hkey
  have := trimRows_length hkey2
  simpa [initStore] using this

theorem initStore_ids_nodup (st : Store) (hkey : (st.rows.map (fun r => r.id)).Nodup) :
    ((initStore st).rows.map (fun r => r.id)).Nodup := by
  have hkey2 : ((st.rows.map cleanupRow).map (fun r => r.id)).Nodup := by
    rw [map_cleanupRow_ids]; exact hkey
  exact hkey2.sublist ((List.filter_sublist _).map _)

theorem initStore_ids_sublist (st : Store) :
    ((initStore st).rows.map (fun r => r.id)).Sublist (st.rows.map (fun r => r.id)) := by
  have h : ((initStore st).rows.map (fun r => r.id)).Sublist
      ((st.rows.map cleanupRow).map (fun r => r.id)) := (List.filter_sublist _).map _
  rwa [map_cleanupRow_ids] at h

/-- A row the initialisation drops has a smaller id than every row it keeps. -/
theorem initStore_dropped_lt (st : Store) (hkey : (st.rows.map (fun r => r.id)).Nodup)
    (r : Row) (hr : r ∈ st.rows) (hdropped : ∀ k ∈ (initStore st).rows, k.id ≠ r.id)
    (k : Row) (hk : k ∈ (initStore st).rows) : r.id < k.id := by
  have hkey2 : ((st.rows.map cleanupRow).map (fun r => r.id)).Nodup := by
    rw [map_cleanupRow_ids]; exact hkey
  obtain ⟨_, hk2⟩ := mem_rows_of_mem_trimRows hk
  have hrid : r.id ∈ (st.rows.map cleanupRow).map (fun r => r.id) := by
    rw [map_cleanupRow_ids]; exact List.mem_map.2 ⟨r, hr, rfl⟩
  refine lt_of_not_mem_latestIds hk2 hrid (fun hin => ?_)
  have hperm := trimRows_ids_perm hkey2
  obtain ⟨k2, hk2m, hk2id⟩ := List.mem_map.1 (hperm.mem_iff.2 hin)
  exact hdropped k2 hk2m hk2id

/-- C3. For every table found at start-up (ids unique, as the primary key
makes them), after initialisation: no row has status "Processing"; a kept
row that had status "Processing" is that row with status "Error" and the
fixed crash message as error, a kept row that had another status is
unchanged; every kept row comes from the table; the kept ids are
distinct and in table order; the rows kept are 100 (all of them when
there are at most 100); and every row dropped has a smaller id than every
row kept. -/
theorem initStore_reclassifies_and_keeps_latest (st : Store)
    (hkey : (st.rows.map (fun r => r.id)).Nodup) :
    (∀ r ∈ (initStore st).rows, r.status ≠ some "Processing") ∧
    (∀ r ∈ st.rows, ∀ k ∈ (initStore st).rows, k.id = r.id →
      (r.status = some "Processing" →
        k = { r with status := some "Error",
                     error := some "Unfinished processing task (server restart or crash)" }) ∧
      (r.status ≠ some "Processing" → k = r)) ∧
    (∀ k ∈ (initStore st).rows, ∃ r ∈ st.rows, k.id = r.id) ∧
    ((initStore st).rows.map (fun r => r.id)).Nodup ∧
    ((initStore st).rows.map (fun r => r.id)).Sublist (st.rows.map (fun r => r.id)) ∧
    (initStore st).rows.length = min 100 st.rows.length ∧
    (∀ r ∈ st.rows, (∀ k ∈ (initStore st).rows, k.id ≠ r.id) →
      ∀ k ∈ (initStore st).rows, r.id < k.id) := by
  refine ⟨?_, ?_, ?_, initStore_ids_nodup st hkey, initStore_ids_sublist st,
    initStore_length st hkey, fun r hr hd k hk => initStore_dropped_lt st hkey r hr hd k hk⟩
  · intro r hr
    obtain ⟨hr1, _⟩ := mem_rows_of_mem_trimRows hr
    obtain ⟨r0, _, rfl⟩ := List.mem_map.1 hr1
    exact cleanupRow_status_ne r0
  · intro r hr k hk hid
    obtain ⟨hk1, _⟩ := mem_rows_of_mem_trimRows hk
    obtain ⟨r0, hr0, rfl⟩ := List.mem_map.1 hk1
    have hr0r : r0 = r :=
      List.inj_on_of_nodup_map hkey hr0 hr (by rw [← hid, cleanupRow_id])
    subst hr0r
    constructor
    · intro hp
      simp [cleanupRow, hp, crashMessage]
    · intro hp
      simp [cleanupRow, hp]
  · intro k hk
    obtain ⟨hk1, _⟩ := mem_rows_of_mem_trimRows hk
    obtain ⟨r0, hr0, rfl⟩ := List.mem_map.1 hk1
    exact ⟨r0, hr0, cleanupRow_id r0⟩

theorem initStore_reclassifies_and_keeps_latest_witness :
    (crowdedStore.rows.map (fun r => r.id)).Nodup ∧
    (initStore crowdedStore).rows.length = min 100 crowdedStore.rows.length ∧
    ((initStore crowdedStore).rows.map (fun r => r.id)).Nodup ∧
    (∀ r ∈ (initStore crowdedStore).rows, r.status ≠ some "Processing") :=
  have h := initStore_reclassifies_and_keeps_latest crowdedStore (by decide)
  ⟨by decide, h.2.2.2.2.2.1, h.2.2.2.1, h.1⟩

/-- The sample table has ids 1 to 102; initialisation keeps ids 3 to 102 and
leaves no row in Processing. -/
theorem initStore_crowdedStore_eval :
    (initStore crowdedStore).rows.map (fun r => r.id) =
      (List.range 100).map (fun i => (i : Int) + 3) ∧
    ((initStore crowdedStore).rows.filter
      (fun r => decide (r.status = some "Error"))).length = 33 := by
  decide

theorem updateRow_id (lib : JsonLib) (id : Int) (fields : Fields) (r : Row) :
    (updateRow lib id fields r).id = r.id := by
  unfold updateRow; split <;> rfl

theorem updateRow_name (lib : JsonLib) (id : Int) (fields : Fields) (r : Row) :
    (updateRow lib id fields r).name = r.name := by
  unfold updateRow; split <;> rfl

theorem updateRow_other (lib : JsonLib) (id : Int) (fields : Fields) (r : Row)
    (h : r.id ≠ id) : updateRow lib id fields r = r := by
  simp [updateRow, h]

theorem mem_updateDocument_rows {lib : JsonLib} {id : Int} {fields : Fields} {st : Store}
    {k : Row} : k ∈ (updateDocument lib id fields st).rows ↔
      ∃ r ∈ st.rows, updateRow lib id fields r = k := by
  simp [updateDocument]

theorem updateDocument_ids (lib : JsonLib) (id : Int) (fields : Fields) (st : Store) :
    (updateDocument lib id fields st).rows.map (fun r => r.id) = st.rows.map (fun r => r.id) := by
  simp only [updateDocument, List.map_map]
  exact List.map_congr_left (fun r _ => updateRow_id lib id fields r)

theorem insertDocument_of_not_full (doc : NewDoc) (st : Store) (h : tableFull st = false) :
    insertDocument doc st =
      .ok (toDouble (nextRowid st),
           { rows := st.rows ++ [insertedRow (nextRowid st) doc], seq := nextRowid st }) := by
  simp [insertDocument, h]

theorem afterInsert_of_not_full (doc : NewDoc) (st : Store) (h : tableFull st = false) :
    afterInsert doc st =
      { rows := st.rows ++ [insertedRow (nextRowid st) doc], seq := nextRowid st } := by
  simp [afterInsert, insertDocument, h]

theorem afterInsert_of_full (doc : NewDoc) (st : Store) (h : tableFull st = true) :
    afterInsert doc st = st := by
  simp [afterInsert, insertDocument, h]

theorem applyOps_cons (lib : JsonLib) (st : Store) (op : StoreOp) (ops : List StoreOp) :
    applyOps lib st (op :: ops) = applyOps lib (applyOp lib st op) ops := rfl

theorem insertedIds_cons (lib : JsonLib) (st : Store) (op : StoreOp) (ops : List StoreOp) :
    insertedIds lib st (op :: ops) =
      (match op with
       | .insert _ => if tableFull st then [] else [nextRowid st]
       | .update _ _ => []) ++ insertedIds lib (applyOp lib st op) ops := rfl

/-- No call removes a row: the ids of the table after a sequence of calls are
the ids before it followed by the ids the inserts wrote. -/
theorem applyOps_ids (lib : JsonLib) (ops : List StoreOp) : ∀ st : Store,
    (applyOps lib st ops).rows.map (fun r => r.id) =
      st.rows.map (fun r => r.id) ++ insertedIds lib st ops := by
  induction ops with
  | nil => intro st; simp [applyOps, insertedIds]
  | cons op ops ih =>
    intro st
    rw [applyOps_cons, ih, insertedIds_cons]
    cases op with
    | insert doc =>
      cases hfull : tableFull st with
      | true => simp [applyOp, afterInsert_of_full doc st hfull]
      | false => simp [applyOp, afterInsert_of_not_full doc st hfull, insertedRow]
    | update id fields =>
      simp only [applyOp, updateDocument_ids, List.nil_append]

theorem insertedIds_length_le (lib : JsonLib) (ops : List StoreOp) : ∀ st : Store,
    (insertedIds lib st ops).length ≤ countInserts ops := by
  induction ops with
  | nil => intro st; simp [insertedIds, countInserts]
  | cons op ops ih =>
    intro st
    have h := ih (applyOp lib st op)
    simp only [countInserts] at h ⊢
    cases op with
    | insert doc =>
      rw [insertedIds_cons]
      simp only [List.length_append]
      split <;> simp <;> omega
    | update id fields =>
      rw [insertedIds_cons]
      simpa using h

theorem maxRowid_ge : ∀ (rows : List Row) (r : Row), r ∈ rows →
    ∃ m, maxRowid rows = some m ∧ r.id ≤ m := by
  intro rows
  induction rows with
  | nil => intro r hr; cases hr
  | cons q qs ih =>
    intro r hr
    unfold maxRowid
    cases hq : maxRowid qs with
    | none =>
      rcases List.mem_cons.1 hr with rfl | hr2
      · exact ⟨_, rfl, le_refl _⟩
      · obtain ⟨m, hm, _⟩ := ih r hr2
        rw [hq] at hm; cases hm
    | some m =>
      refine ⟨_, rfl, ?_⟩
      rcases List.mem_cons.1 hr with rfl | hr2
      · exact le_max_left _ _
      · obtain ⟨m2, hm2, hle⟩ := ih r hr2
        rw [hq] at hm2; cases hm2
        exact le_trans hle (le_max_right _ _)

/-- The id an insert picks is larger than every id of the table. -/
theorem lt_nextRowid (st : Store) (r : Row) (hr : r ∈ st.rows) : r.id < nextRowid st := by
  obtain ⟨m, hm, hle⟩ := maxRowid_ge st.rows r hr
  simp only [nextRowid, hm]
  exact lt_of_lt_of_le (by omega : r.id < m + 1) (le_max_left _ _)

/-- Every id an insert writes is larger than every id the table held before
the sequence of calls. -/
theorem lt_of_mem_insertedIds (lib : JsonLib) (ops : List StoreOp) : ∀ (st : Store) (x : Int),
    x ∈ insertedIds lib st ops → ∀ y ∈ st.rows.map (fun r => r.id), y < x := by
  induction ops with
  | nil => intro st x hx; simp [insertedIds] at hx
  | cons op ops ih =>
    intro st x hx y hy
    rw [insertedIds_cons] at hx
    have hgrow : y ∈ (applyOp lib st op).rows.map (fun r => r.id) := by
      have := applyOps_ids lib [op] st
      simp only [applyOps, List.foldl] at this
      rw [this]; exact List.mem_append_left _ hy
    rcases List.mem_append.1 hx with h1 | h2
    · cases op with
      | insert doc =>
        simp only at h1
        split at h1
        · cases h1
        · obtain ⟨r, hr, rfl⟩ := List.mem_map.1 hy
          have hx2 : x = nextRowid st := by simpa using h1
          rw [hx2]; exact lt_nextRowid st r hr
      | update id fields => cases h1
    · exact ih _ x h2 y hgrow

theorem decodeRow_id {lib : JsonLib} {r : Row} {d : Doc} (h : decodeRow lib r = .ok d) :
    d.id = r.id := by
  unfold decodeRow at h
  split at h
  · cases h
  · split at h
    · cases h
    · cases h; rfl

theorem decodeRows_ids (lib : JsonLib) : ∀ (rows : List Row) (docs : List Doc),
    decodeRows lib rows = .ok docs → docs.map (fun d => d.id) = rows.map (fun r => r.id) := by
  intro rows
  induction rows with
  | nil => intro docs h; cases h; rfl
  | cons r rs ih =>
    intro docs h
    unfold decodeRows at h
    split at h
    · cases h
    · rename_i d hd
      split at h
      · cases h
      · rename_i ds hds
        cases h
        simp [decodeRow_id hd, ih ds hds]

theorem parseColumn_absent (lib : JsonLib) (text : Option String) (dflt : Json)
    (h : text = none ∨ text = some "") : parseColumn lib text dflt = .ok dflt := by
  rcases h with h | h <;> subst h <;> simp [parseColumn]

theorem parseColumn_parsed (lib : JsonLib) (s : String) (dflt v : Json)
    (hs : s ≠ "") (h : lib.parse s = some v) : parseColumn lib (some s) dflt = .ok v := by
  simp [parseColumn, hs, h]

theorem parseColumn_malformed (lib : JsonLib) (s : String) (dflt : Json)
    (hs : s ≠ "") (h : lib.parse s = none) :
    parseColumn lib (some s) dflt = .error { text := s } := by
  simp [parseColumn, hs, h]

theorem parseColumn_ok_cases {lib : JsonLib} {text : Option String} {dflt v : Json}
    (h : parseColumn lib text dflt = .ok v) :
    ((text = none ∨ text = some "") ∧ v = dflt) ∨
    (∃ s, text = some s ∧ s ≠ "" ∧ lib.parse s = some v) := by
  unfold parseColumn at h
  split at h
  · cases h; exact Or.inl ⟨Or.inl rfl, rfl⟩
  · rename_i s
    split at h
    · rename_i hs
      cases h; subst hs; exact Or.inl ⟨Or.inr rfl, rfl⟩
    · rename_i hs
      split at h
      · rename_i w hw
        cases h; exact Or.inr ⟨s, rfl, hs, hw⟩
      · cases h

/-- A readable text is one `parseColumn` returns on, and conversely. -/
theorem readableText_iff (lib : JsonLib) (text : Option String) (dflt : Json) :
    readableText lib text = true ↔ ∃ v, parseColumn lib text dflt = .ok v := by
  cases text with
  | none => simp [readableText, parseColumn]
  | some s =>
    by_cases hs : s = ""
    · subst hs; simp [readableText, parseColumn]
    · cases hp : lib.parse s with
      | none => simp [readableText, parseColumn, hs, hp]
      | some v => simp [readableText, parseColumn, hs, hp]

theorem decodeRow_ok_iff {lib : JsonLib} {r : Row} {d : Doc} :
    decodeRow lib r = .ok d ↔
      parseColumn lib r.topics (Json.arr []) = .ok d.topics ∧
      parseColumn lib r.tokens Json.null = .ok d.tokens ∧
      d.id = r.id ∧ d.name = r.name ∧ d.timestamp = r.timestamp ∧ d.status = r.status ∧
      d.summary = r.summary ∧ d.docType = r.docType ∧ d.error = r.error := by
  unfold decodeRow
  constructor
  · intro h
    split at h
    · cases h
    · rename_i topics ht
      split at h
      · cases h
      · rename_i tokens hk
        cases h
        exact ⟨ht, hk, rfl, rfl, rfl, rfl, rfl, rfl, rfl⟩
  · rintro ⟨ht, hk, h1, h2, h3, h4, h5, h6, h7⟩
    rw [ht, hk]
    cases d
    simp_all

/-- A row decodes exactly when its two serialised columns are readable. -/
theorem decodeRow_ok_of_readable (lib : JsonLib) (r : Row) :
    (readableText lib r.topics && readableText lib r.tokens) = true ↔
      ∃ d, decodeRow lib r = .ok d := by
  rw [Bool.and_eq_true, readableText_iff lib r.topics (Json.arr []),
    readableText_iff lib r.tokens Json.null]
  constructor
  · rintro ⟨⟨v1, h1⟩, ⟨v2, h2⟩⟩
    unfold decodeRow
    rw [h1, h2]
    exact ⟨_, rfl⟩
  · rintro ⟨d, hd⟩
    obtain ⟨h1, h2, _⟩ := decodeRow_ok_iff.1 hd
    exact ⟨⟨_, h1⟩, ⟨_, h2⟩⟩

theorem decodeRows_ok (lib : JsonLib) : ∀ rows : List Row,
    (∀ r ∈ rows, ∃ d, decodeRow lib r = .ok d) →
    ∃ docs, decodeRows lib rows = .ok docs ∧
      List.Forall₂ (fun r d => decodeRow lib r = .ok d) rows docs := by
  intro rows
  induction rows with
  | nil => intro _; exact ⟨[], rfl, List.Forall₂.nil⟩
  | cons r rs ih =>
    intro h
    obtain ⟨d, hd⟩ := h r (List.mem_cons_self _ _)
    obtain ⟨ds, hds, hall⟩ := ih (fun q hq => h q (List.mem_cons_of_mem _ hq))
    exact ⟨d :: ds, by simp [decodeRows, hd, hds], List.Forall₂.cons hd hall⟩

theorem decodeRows_error (lib : JsonLib) : ∀ rows : List Row,
    (∃ r ∈ rows, ∃ e, decodeRow lib r = .error e) →
    ∃ e, decodeRows lib rows = .error e := by
  intro rows
  induction rows with
  | nil => rintro ⟨r, hr, _⟩; cases hr
  | cons r rs ih =>
    rintro ⟨q, hq, e, he⟩
    unfold decodeRows
    split
    · exact ⟨_, rfl⟩
    · rename_i d hd
      rcases List.mem_cons.1 hq with rfl | hq2
      · rw [he] at hd; cases hd
      · obtain ⟨e2, he2⟩ := ih ⟨q, hq2, e, he⟩
        rw [he2]; exact ⟨_, rfl⟩

theorem rowsReadable_iff (lib : JsonLib) (rows : List Row) :
    rowsReadable lib rows = true ↔ ∀ r ∈ rows, ∃ d, decodeRow lib r = .ok d := by
  simp only [rowsReadable, List.all_eq_true]
  exact forall₂_congr (fun r _ => decodeRow_ok_of_readable lib r)

theorem rowsReadable_initStore (lib : JsonLib) (st : Store)
    (h : rowsReadable lib st.rows = true) : rowsReadable lib (initStore st).rows = true := by
  simp only [rowsReadable, List.all_eq_true] at h ⊢
  intro k hk
  obtain ⟨hk1, _⟩ := mem_rows_of_mem_trimRows hk
  obtain ⟨r, hr, rfl⟩ := List.mem_map.1 hk1
  have := h r hr
  unfold cleanupRow
  split <;> exact this

theorem rowsReadable_applyOps (lib : JsonLib) (ops : List StoreOp) : ∀ st : Store,
    rowsReadable lib st.rows = true → opsReadable lib ops = true →
    rowsReadable lib (applyOps lib st ops).rows = true := by
  induction ops with
  | nil => intro st h _; exact h
  | cons op ops ih =>
    intro st h hops
    simp only [opsReadable, List.all_cons, Bool.and_eq_true] at hops
    rw [applyOps_cons]
    refine ih _ ?_ (by simpa [opsReadable] using hops.2)
    simp only [rowsReadable, List.all_eq_true] at h ⊢
    cases op with
    | insert doc =>
      cases hfull : tableFull st with
      | true => simpa [applyOp, afterInsert_of_full doc st hfull] using h
      | false =>
        intro k hk
        simp only [applyOp, afterInsert_of_not_full doc st hfull, List.mem_append,
          List.mem_singleton] at hk
        rcases hk with hk | rfl
        · exact h k hk
        · simp [insertedRow, readableText]
    | update id fields =>
      intro k hk
      obtain ⟨r, hr, rfl⟩ := mem_updateDocument_rows.1 hk
      unfold updateRow
      split
      · simpa using hops.1
      · exact h r hr

/-- C2, as the code has it. For every table found at start-up (ids unique, the
stored texts readable) and every finite sequence of insertDocument /
updateDocument calls after the initialisation (the updates storing
readable texts): initialisation keeps rows of the table, those with the
largest ids, 100 of them or all when there are fewer; the calls purge
nothing, so
getAllDocuments returns, and returns in table order the records kept at
initialisation followed by one record per insertDocument call that did
not throw, at most 100 plus the number of insertDocument calls; every
inserted id is larger than every id kept at initialisation. -/
theorem getAllDocuments_after_calls (lib : JsonLib) (st : Store) (ops : List StoreOp)
    (hkey : (st.rows.map (fun r => r.id)).Nodup)
    (hrows : rowsReadable lib st.rows = true)
    (hops : opsReadable lib ops = true) :
    (initStore st).rows.length = min 100 st.rows.length ∧
    ((initStore st).rows.map (fun r => r.id)).Nodup ∧
    ((initStore st).rows.map (fun r => r.id)).Sublist (st.rows.map (fun r => r.id)) ∧
    (∀ r ∈ st.rows, (∀ k ∈ (initStore st).rows, k.id ≠ r.id) →
      ∀ k ∈ (initStore st).rows, r.id < k.id) ∧
    ∃ docs, getAllDocuments lib (applyOps lib (initStore st) ops) = .ok docs ∧
      docs.map (fun d => d.id) =
        (initStore st).rows.map (fun r => r.id) ++ insertedIds lib (initStore st) ops ∧
      (insertedIds lib (initStore st) ops).length ≤ countInserts ops ∧
      docs.length ≤ 100 + countInserts ops ∧
      (∀ x ∈ insertedIds lib (initStore st) ops, ∀ k ∈ (initStore st).rows, k.id < x) := by
  have hlen := initStore_length st hkey
  refine ⟨hlen, initStore_ids_nodup st hkey, initStore_ids_sublist st,
    fun r hr hd k hk => initStore_dropped_lt st hkey r hr hd k hk, ?_⟩
  have hread := rowsReadable_applyOps lib ops (initStore st)
    (rowsReadable_initStore lib st hrows) hops
  obtain ⟨docs, hdocs, _⟩ := decodeRows_ok lib _ ((rowsReadable_iff lib _).1 hread)
  have hids : docs.map (fun d => d.id) =
      (initStore st).rows.map (fun r => r.id) ++ insertedIds lib (initStore st) ops := by
    rw [decodeRows_ids lib _ docs hdocs, applyOps_ids]
  have hins := insertedIds_length_le lib ops (initStore st)
  refine ⟨docs, hdocs, hids, hins, ?_, ?_⟩
  · have h1 : docs.length =
        (initStore st).rows.length + (insertedIds lib (initStore st) ops).length := by
      have := congrArg List.length hids
      simpa using this
    omega
  · intro x hx k hk
    exact lt_of_mem_insertedIds lib ops (initStore st) x hx k.id (List.mem_map.2 ⟨k, hk, rfl⟩)

theorem getAllDocuments_after_calls_witness :
    (crowdedStore.rows.map (fun r => r.id)).Nodup ∧
    rowsReadable jsonLib crowdedStore.rows = true ∧
    opsReadable jsonLib sampleOps = true ∧
    ∃ docs, getAllDocuments jsonLib (applyOps jsonLib (initStore crowdedStore) sampleOps) =
        .ok docs ∧
      docs.map (fun d => d.id) =
        (initStore crowdedStore).rows.map (fun r => r.id) ++
          insertedIds jsonLib (initStore crowdedStore) sampleOps :=
  have h := getAllDocuments_after_calls jsonLib crowdedStore sampleOps
    (by decide) (by decide) (by decide)
  ⟨by decide, by decide, by decide, h.2.2.2.2.imp (fun _ hd => ⟨hd.1, hd.2.1⟩)⟩

/-- On the sample table (ids 1 to 102) initialised and given one insert and
one update, getAllDocuments returns 101 records: ids 3 to 103. -/
theorem getAllDocuments_sampleOps_eval :
    Except.map (fun docs => docs.map (fun d => d.id))
      (getAllDocuments jsonLib (applyOps jsonLib (initStore crowdedStore) sampleOps)) =
      .ok ((List.range 101).map (fun i => (i : Int) + 3)) ∧
    insertedIds jsonLib (initStore crowdedStore) sampleOps = [103] := by
  constructor <;> rfl

/-- C2 fails as stated: 101 inserts into an initialised empty table leave 101
records in what getAllDocuments returns, the oldest one (id 1) among them. -/
theorem getAllDocuments_exceeds_100 :
    Except.map (fun docs => (docs.length, (docs.map (fun d => d.id)).head?))
      (getAllDocuments jsonLib
        (applyOps jsonLib (initStore emptyStore) (List.replicate 101 (.insert sampleDoc)))) =
      .ok (101, some 1) := by
  rfl
theorem forall₂_mem_right {α β : Type} {R : α → β → Prop} {xs : List α} {ys : List β}
    (h : List.Forall₂ R xs ys) : ∀ y ∈ ys, ∃ x ∈ xs, R x y := by
  induction h with
  | nil => intro y hy; cases hy
  | cons hxy _ ih =>
    intro y hy
    rcases List.mem_cons.1 hy with rfl | hy2
    · exact ⟨_, List.mem_cons_self _ _, hxy⟩
    · obtain ⟨x, hx, hr⟩ := ih y hy2
      exact ⟨x, List.mem_cons_of_mem _ hx, hr⟩

theorem forall₂_mem_left {α β : Type} {R : α → β → Prop} {xs : List α} {ys : List β}
    (h : List.Forall₂ R xs ys) : ∀ x ∈ xs, ∃ y ∈ ys, R x y := by
  induction h with
  | nil => intro x hx; cases hx
  | cons hxy _ ih =>
    intro x hx
    rcases List.mem_cons.1 hx with rfl | hx2
    · exact ⟨_, List.mem_cons_self _ _, hxy⟩
    · obtain ⟨y, hy, hr⟩ := ih x hx2
      exact ⟨y, List.mem_cons_of_mem _ hy, hr⟩

/-- C10, as the code has it. When every stored topics and tokens text is NULL,
empty or valid serialized data, getAllDocuments returns one record per
row, with topics = [] where the stored topics text is NULL or empty,
tokens = null where the stored tokens text is NULL or empty, and the
parsed value of the text otherwise. When some row holds a non-empty text
that does not parse, getAllDocuments throws and GET /documents answers
500. -/
theorem getAllDocuments_defaults (lib : JsonLib) (st : Store) :
    (rowsReadable lib st.rows = true →
      ∃ docs, getAllDocuments lib st = .ok docs ∧
        List.Forall₂ (fun r d =>
          d.id = r.id ∧
          ((r.topics = none ∨ r.topics = some "") → d.topics = Json.arr []) ∧
          ((r.tokens = none ∨ r.tokens = some "") → d.tokens = Json.null) ∧
          (∀ s, r.topics = some s → s ≠ "" → lib.parse s = some d.topics) ∧
          (∀ s, r.tokens = some s → s ≠ "" → lib.parse s = some d.tokens)) st.rows docs) ∧
    (rowsReadable lib st.rows = false →
      (∃ e, getAllDocuments lib st = .error e) ∧ (documentsRoute lib st).1 = 500) := by
  constructor
  · intro hread
    obtain ⟨docs, hdocs, hall⟩ := decodeRows_ok lib st.rows ((rowsReadable_iff lib _).1 hread)
    refine ⟨docs, hdocs, hall.imp (fun {r d} hrd => ?_)⟩
    obtain ⟨ht, hk, hid, _⟩ := decodeRow_ok_iff.1 hrd
    refine ⟨hid, ?_, ?_, ?_, ?_⟩
    · intro habs
      rw [parseColumn_absent lib _ _ habs] at ht
      exact (Except.ok.inj ht).symm
    · intro habs
      rw [parseColumn_absent lib _ _ habs] at hk
      exact (Except.ok.inj hk).symm
    · intro s hs hne
      rcases parseColumn_ok_cases ht with ⟨h | h, _⟩ | ⟨s2, h, _, hp⟩
      · rw [hs] at h; cases h
      · rw [hs] at h; cases h; exact absurd rfl hne
      · rw [hs] at h; cases h; exact hp
    · intro s hs hne
      rcases parseColumn_ok_cases hk with ⟨h | h, _⟩ | ⟨s2, h, _, hp⟩
      · rw [hs] at h; cases h
      · rw [hs] at h; cases h; exact absurd rfl hne
      · rw [hs] at h; cases h; exact hp
  · intro hread
    have hnot : ¬ ∀ r ∈ st.rows, ∃ d, decodeRow lib r = .ok d := by
      intro h
      rw [(rowsReadable_iff lib _).2 h] at hread
      cases hread
    have hbad : ∃ r ∈ st.rows, ∃ e, decodeRow lib r = .error e := by
      by_contra hcon
      apply hnot
      intro r hr
      cases hd : decodeRow lib r with
      | ok d => exact ⟨d, rfl⟩
      | error e => exact absurd ⟨r, hr, e, hd⟩ hcon
    obtain ⟨e, he⟩ := decodeRows_error lib st.rows hbad
    refine ⟨⟨e, he⟩, ?_⟩
    simp [documentsRoute, getAllDocuments, he]

theorem getAllDocuments_defaults_witness :
    rowsReadable jsonLib mixedStore.rows = true ∧
    mixedStore.rows.map (fun r => (r.topics, r.tokens)) =
      [(none, none), (some "", some ""),
       (some "[\"x\",\"y\"]",
        some "\x7b\"input_tokens\":10,\"output_tokens\":5,\"total_tokens\":15\x7d")] ∧
    ∃ docs, getAllDocuments jsonLib mixedStore = .ok docs ∧
      List.Forall₂ (fun r d =>
        d.id = r.id ∧
        ((r.topics = none ∨ r.topics = some "") → d.topics = Json.arr []) ∧
        ((r.tokens = none ∨ r.tokens = some "") → d.tokens = Json.null) ∧
        (∀ s, r.topics = some s → s ≠ "" → jsonLib.parse s = some d.topics) ∧
        (∀ s, r.tokens = some s → s ≠ "" → jsonLib.parse s = some d.tokens))
        mixedStore.rows docs :=
  ⟨by decide, by decide, (getAllDocuments_defaults jsonLib mixedStore).1 (by decide)⟩

/-- On the table with a never-updated row, a row of empty texts and the
updated sample row, getAllDocuments returns topics = [] and tokens = null
for the first two rows and the parsed values for the third. -/
theorem getAllDocuments_mixedStore_eval :
    Except.map (fun docs => docs.map (fun d =>
        (d.id,
         (match d.topics with
          | .arr [] => "empty array"
          | .arr _ => "array"
          | _ => "other"),
         (match d.tokens with
          | .null => "null"
          | .obj _ => "object"
          | _ => "other")))) (getAllDocuments jsonLib mixedStore) =
      .ok [(1, "empty array", "null"), (2, "empty array", "null"), (3, "array", "object")] := by
  rfl

/-- C10 fails as stated: on a table whose one row stores the topics text
"not json", getAllDocuments throws the error of JSON.parse on that text
and GET /documents answers 500. -/
theorem getAllDocuments_throws_on_malformed :
    getAllDocuments jsonLib malformedStore = .error { text := "not json" } ∧
    (documentsRoute jsonLib malformedStore).1 = 500 := by
  constructor <;> rfl

/-- A record updated with `topics` and `tokens` omitted stores the text "null"
in both columns, and getAllDocuments returns it with topics = null. -/
theorem getAllDocuments_after_status_only_update :
    statusOnlyUpdated.rows.map (fun r => (r.topics, r.tokens)) =
      [(some "null", some "null")] ∧
    Except.map (fun docs => docs.map (fun d =>
        (match d.topics with
         | .null => true
         | _ => false))) (getAllDocuments jsonLib statusOnlyUpdated) = .ok [true] := by
  constructor <;> rfl

/-- The first row of a list sorted by decreasing id has the largest id. -/
theorem head_insertionSort_by_id (rows : List Row) (x : Row) (hx : x ∈ rows) :
    ∃ top, (rows.insertionSort (fun a b => b.id ≤ a.id)).head? = some top ∧
      top ∈ rows ∧ ∀ y ∈ rows, y.id ≤ top.id := by
  haveI : IsTotal Row (fun a b => b.id ≤ a.id) := ⟨fun a b => le_total b.id a.id⟩
  haveI : IsTrans Row (fun a b => b.id ≤ a.id) := ⟨fun _ _ _ hab hbc => le_trans hbc hab⟩
  have hsorted := List.sorted_insertionSort (fun a b : Row => b.id ≤ a.id) rows
  have hmem : ∀ y, y ∈ rows.insertionSort (fun a b => b.id ≤ a.id) ↔ y ∈ rows :=
    fun y => List.mem_insertionSort _
  cases hl : rows.insertionSort (fun a b => b.id ≤ a.id) with
  | nil =>
    have := (hmem x).2 hx
    rw [hl] at this; cases this
  | cons top tl =>
    rw [hl] at hsorted
    refine ⟨top, rfl, (hmem top).1 (by rw [hl]; exact List.mem_cons_self _ _), ?_⟩
    intro y hy
    have hy2 := (hmem y).2 hy
    rw [hl] at hy2
    rcases List.mem_cons.1 hy2 with rfl | hy3
    · exact le_refl _
    · exact List.rel_of_sorted_cons hsorted y hy3

/-- What holds of the C4 round trip: after updateDocument(id, status, topics t,
tokens k) with texts JSON.parse reads back, and the other rows readable,
getAllDocuments returns and its element with that id carries t and k;
getLatestDocumentByName returns the stored row, whose topics and tokens
are the texts JSON.stringify(t) and JSON.stringify(k). -/
theorem updateDocument_then_read (lib : JsonLib) (st : Store) (id : Int) (status : String)
    (t : List String) (k : Json)
    (hempty : lib.parse "" = none)
    (ht : lib.parse (lib.stringify (.arr (t.map Json.str))) = some (.arr (t.map Json.str)))
    (hk : lib.parse (lib.stringify k) = some k)
    (hexists : ∃ r ∈ st.rows, r.id = id)
    (hothers : ∀ r ∈ st.rows, r.id ≠ id → ∃ d, decodeRow lib r = .ok d) :
    (∃ docs,
      getAllDocuments lib (updateDocument lib id
        { status := status, topics := some (.arr (t.map Json.str)), tokens := some k } st)
        = .ok docs ∧
      (∃ d ∈ docs, d.id = id) ∧
      ∀ d ∈ docs, d.id = id →
        d.status = some status ∧ d.topics = .arr (t.map Json.str) ∧ d.tokens = k) ∧
    (∀ name, (∃ r ∈ st.rows, r.id = id ∧ r.name = some name) →
      (∀ q ∈ st.rows, q.name = some name → q.id ≤ id) →
      ∃ row, getLatestDocumentByName name (updateDocument lib id
          { status := status, topics := some (.arr (t.map Json.str)), tokens := some k } st)
          = some row ∧
        row.id = id ∧
        row.topics = some (lib.stringify (.arr (t.map Json.str))) ∧
        row.tokens = some (lib.stringify k)) := by
  have hnt : lib.stringify (.arr (t.map Json.str)) ≠ "" := by
    intro h; rw [h, hempty] at ht; cases ht
  have hnk : lib.stringify k ≠ "" := by
    intro h; rw [h, hempty] at hk; cases hk
  have hupd : ∀ r : Row, r.id = id →
      decodeRow lib (updateRow lib id
        { status := status, topics := some (.arr (t.map Json.str)), tokens := some k } r) =
      .ok { id := r.id, name := r.name, timestamp := r.timestamp, status := some status,
            summary := none, topics := .arr (t.map Json.str), docType := none,
            tokens := k, error := none } := by
    intro r hr
    simp only [updateRow, hr, if_true, decodeRow, Option.getD_some]
    rw [parseColumn_parsed lib _ _ _ hnt ht, parseColumn_parsed lib _ _ _ hnk hk]
  constructor
  · have hdec : ∀ r ∈ (updateDocument lib id
        { status := status, topics := some (.arr (t.map Json.str)), tokens := some k } st).rows,
        ∃ d, decodeRow lib r = .ok d := by
      intro r hr
      obtain ⟨r0, hr0, rfl⟩ := mem_updateDocument_rows.1 hr
      by_cases hid : r0.id = id
      · exact ⟨_, hupd r0 hid⟩
      · rw [updateRow_other lib id _ r0 hid]; exact hothers r0 hr0 hid
    obtain ⟨docs, hdocs, hall⟩ := decodeRows_ok lib _ hdec
    refine ⟨docs, hdocs, ?_, ?_⟩
    · obtain ⟨r, hr, hrid⟩ := hexists
      obtain ⟨d, hd, hrd⟩ := forall₂_mem_left hall _ (mem_updateDocument_rows.2 ⟨r, hr, rfl⟩)
      exact ⟨d, hd, by rw [decodeRow_id hrd, updateRow_id, hrid]⟩
    · intro d hd hdid
      obtain ⟨r, hr, hrd⟩ := forall₂_mem_right hall d hd
      obtain ⟨r0, _, rfl⟩ := mem_updateDocument_rows.1 hr
      have hid : r0.id = id := by rw [← hdid, decodeRow_id hrd, updateRow_id]
      rw [hupd r0 hid] at hrd
      cases hrd
      exact ⟨rfl, rfl, rfl⟩
  · rintro name ⟨r, hr, hrid, hrname⟩ hnewest
    have hin : updateRow lib id
        { status := status, topics := some (.arr (t.map Json.str)), tokens := some k } r ∈
        (updateDocument lib id
          { status := status, topics := some (.arr (t.map Json.str)), tokens := some k }
          st).rows.filter (fun q => decide (q.name = some name)) := by
      refine List.mem_filter.2 ⟨mem_updateDocument_rows.2 ⟨r, hr, rfl⟩, ?_⟩
      simp [updateRow_name, hrname]
    obtain ⟨top, htop, hmem, hmax⟩ := head_insertionSort_by_id _ _ hin
    refine ⟨top, htop, ?_⟩
    obtain ⟨hmem1, hname⟩ := List.mem_filter.1 hmem
    obtain ⟨q, hq, rfl⟩ := mem_updateDocument_rows.1 hmem1
    have hqname : q.name = some name := by
      simpa [updateRow_name] using hname
    have h1 : q.id ≤ id := hnewest q hq hqname
    have h2 := hmax _ hin
    rw [updateRow_id, updateRow_id, hrid] at h2
    have hqid : q.id = id := le_antisymm h1 h2
    refine ⟨by rw [updateRow_id, hqid], ?_, ?_⟩ <;> simp [updateRow, hqid]

theorem updateDocument_then_read_witness :
    ∃ docs, getAllDocuments jsonLib (updateDocument jsonLib 1
        { status := "Complete", topics := some (.arr (["x", "y"].map Json.str)),
          tokens := some sampleUsage } sampleInserted) = .ok docs ∧
      (∃ d ∈ docs, d.id = 1) ∧
      ∀ d ∈ docs, d.id = 1 →
        d.status = some "Complete" ∧ d.topics = .arr (["x", "y"].map Json.str) ∧
        d.tokens = sampleUsage :=
  (updateDocument_then_read jsonLib sampleInserted 1 "Complete" ["x", "y"] sampleUsage
    (by rfl) (by rfl) (by rfl) (by decide)
    (fun r hr hne => absurd ((by decide : ∀ q ∈ sampleInserted.rows, q.id = 1) r hr) hne)).1

/-- C4 at a failing input: the record "a.pdf" is created in an initialised
empty table and updated to Complete with topics ["x","y"] and the usage
object. getLatestDocumentByName("a.pdf") returns topics and tokens as the
stored JSON texts, not as an array and an object; getAllDocuments returns
them as an array and an object. -/
theorem getLatestDocumentByName_returns_text :
    (getLatestDocumentByName "a.pdf" sampleUpdated).map (fun r => (r.topics, r.tokens)) =
      some (some "[\"x\",\"y\"]",
            some "\x7b\"input_tokens\":10,\"output_tokens\":5,\"total_tokens\":15\x7d") ∧
    Except.map (fun docs => docs.map (fun d =>
        ((match d.topics with
          | .arr [.str "x", .str "y"] => true
          | _ => false),
         (match d.tokens with
          | .obj [("input_tokens", .num 10), ("output_tokens", .num 5),
                  ("total_tokens", .num 15)] => true
          | _ => false)))) (getAllDocuments jsonLib sampleUpdated) = .ok [(true, true)] := by
  constructor
  · decide
  · rfl

/-! ## Theorems: the gateway -/

theorem nearestDouble_of_le (a : Nat) (h : a ≤ 2 ^ 53) : nearestDouble a = a := by
  unfold nearestDouble
  rw [if_pos h]

/-- An id from 0 to 2^53 is handed back to JavaScript as it is. -/
theorem toDouble_of_small (n : Int) (h0 : 0 ≤ n) (h : n ≤ 2 ^ 53) : toDouble n = n := by
  have hnat : n.natAbs ≤ 2 ^ 53 := by omega
  simp only [toDouble, not_lt.2 h0, if_false, nearestDouble_of_le _ hnat]
  omega

/-- Bounds of the id an insert picks, for a table that never held an id of
2^53 or more. -/
theorem nextRowid_bounds (st : Store) (hseq0 : 0 ≤ st.seq) (hseq : st.seq < 2 ^ 53)
    (hids : ∀ r ∈ st.rows, r.id < 2 ^ 53) :
    1 ≤ nextRowid st ∧ nextRowid st ≤ 2 ^ 53 ∧ tableFull st = false := by
  have hmax : ∀ m, maxRowid st.rows = some m → m < 2 ^ 53 := by
    have : ∀ rows : List Row, (∀ r ∈ rows, r.id < 2 ^ 53) →
        ∀ m, maxRowid rows = some m → m < 2 ^ 53 := by
      intro rows
      induction rows with
      | nil => intro _ m hm; cases hm
      | cons q qs ih =>
        intro h m hm
        unfold maxRowid at hm
        have hq := h q (List.mem_cons_self _ _)
        cases hqs : maxRowid qs with
        | none => rw [hqs] at hm; cases hm; exact hq
        | some m2 =>
          rw [hqs] at hm; cases hm
          have := ih (fun r hr => h r (List.mem_cons_of_mem _ hr)) m2 hqs
          exact max_lt hq this
    exact this st.rows hids
  cases hm : maxRowid st.rows with
  | none =>
    simp only [nextRowid, tableFull, maxRowidValue, hm]
    refine ⟨le_max_of_le_left (le_refl _), max_le (by norm_num) (by omega), ?_⟩
    simp; omega
  | some m =>
    have := hmax m hm
    simp only [nextRowid, tableFull, maxRowidValue, hm]
    refine ⟨le_max_of_le_right (by omega), max_le (by omega) (by omega), ?_⟩
    simp; omega

theorem findRow_inserted (doc : NewDoc) (st : Store) :
    findRow (nextRowid st)
      { rows := st.rows ++ [insertedRow (nextRowid st) doc], seq := nextRowid st } =
      some (insertedRow (nextRowid st) doc) := by
  have hnone : st.rows.find? (fun r => r.id == nextRowid st) = none := by
    rw [List.find?_eq_none]
    intro r hr
    have := lt_nextRowid st r hr
    simp; omega
  simp [findRow, List.find?_append, hnone, insertedRow]

theorem findRow_updateDocument (lib : JsonLib) (id : Int) (fields : Fields) (st : Store)
    (r : Row) (h : findRow id st = some r) :
    findRow id (updateDocument lib id fields st) = some (updateRow lib id fields r) := by
  unfold findRow updateDocument at *
  simp only [List.find?_map]
  have hcomp : ((fun r : Row => r.id == id) ∘ updateRow lib id fields) =
      (fun r : Row => r.id == id) := by
    funext q; simp [Function.comp, updateRow_id]
  rw [hcomp, h]; rfl

/-- When the upload to the external service or the external call throws after
the insert, the handler answers through its catch block and the table is
the one the insert left: the record of the request keeps status
"Processing" and a NULL error. -/
theorem analyze_external_failure (lib : JsonLib) (u : Upload) (env : Env) (st : Store)
    (m : String) (hmv : env.mv = .ok ()) (hroom : tableFull st = false)
    (hfail : env.filesCreate = .error m ∨
      ∃ fid, env.filesCreate = .ok fid ∧ env.responsesCreate fid = .error m) :
    analyze lib (some u) env st =
      some (afterInsert { name := u.name, timestamp := env.now, status := "Processing" } st,
            catchBlock m) ∧
    (findRow (nextRowid st)
      (afterInsert { name := u.name, timestamp := env.now, status := "Processing" } st)).map
        (fun r => (r.status, r.error)) = some (some "Processing", none) := by
  constructor
  · rcases hfail with h | ⟨fid, h1, h2⟩
    · simp [analyze, hmv, h, insertDocument, afterInsert, hroom]
    · simp [analyze, hmv, h1, h2, insertDocument, afterInsert, hroom]
  · rw [afterInsert_of_not_full _ _ hroom, findRow_inserted]
    rfl

theorem analyze_external_failure_witness :
    analyze jsonLib (some sampleUpload) quotaEnv emptyStore =
      some (afterInsert { name := "a.pdf", timestamp := quotaEnv.now,
                          status := "Processing" } emptyStore,
            catchBlock "quota exceeded") :=
  (analyze_external_failure jsonLib sampleUpload quotaEnv emptyStore "quota exceeded" rfl
    (by decide) (Or.inr ⟨"file-1", rfl, rfl⟩)).1

/-- C1 at a failing input: the external call fails with "quota exceeded" on an
initialised empty table. The caller gets status 500 with that message,
and when the handler finishes the record of the request (id 1) still has
status "Processing" and no error text. -/
theorem analyze_failure_leaves_processing :
    (analyze jsonLib (some sampleUpload) quotaEnv (initStore emptyStore)).map
      (fun out => (out.1.statuses, out.2.failure?)) =
    some ([(1, some "Processing", none)], some (500, "quota exceeded")) := by
  decide

/-- C5 at a failing input: the external call succeeds with the output text
"null". The handler answers status 500 (reading `summary` of null throws)
and leaves the record of the request in "Processing". -/
theorem analyze_null_output_fails :
    (analyze jsonLib (some sampleUpload) (outputEnv "null") (initStore emptyStore)).map
      (fun out => (out.1.statuses, out.2.failure?)) =
    some ([(1, some "Processing", none)],
          some (500, "Cannot read properties of null (reading \x27summary\x27)")) := by
  decide

/-- C6, as the code has it. For every raw output text that JSON.parse rejects,
when the file move, the upload, the external call and the removal of the
temporary file succeed and the table never held an id of 2^53 or more,
the handler answers 200 with summary equal to the raw text, topics = []
and docType = "Unknown" (and the usage reported), and the record of the
request is stored with status "Complete", summary equal to the raw text,
the serialised [] as topics, docType "Unknown" and no error. -/
theorem analyze_fallback (lib : JsonLib) (u : Upload) (env : Env) (st : Store)
    (fid : String) (resp : ApiResponse) (text : String)
    (hseq0 : 0 ≤ st.seq) (hseq : st.seq < 2 ^ 53) (hids : ∀ r ∈ st.rows, r.id < 2 ^ 53)
    (hmv : env.mv = .ok ()) (hup : env.filesCreate = .ok fid)
    (hcall : env.responsesCreate fid = .ok resp) (hrm : env.unlink = .ok ())
    (htext : resp.output_text = some text) (hparse : lib.parse text = none) :
    ∃ st2 body, analyze lib (some u) env st = some (st2, .success body) ∧
      body.summary = some (.str text) ∧ body.topics = some (.arr []) ∧
      body.docType = some (.str "Unknown") ∧ body.tokens = resp.usage ∧
      (∀ r ∈ st.rows, r.id < body.id) ∧
      st2.rows.length = st.rows.length + 1 ∧
      ∃ row, findRow body.id st2 = some row ∧
        row.name = some u.name ∧ row.status = some "Complete" ∧
        row.summary = some text ∧ row.topics = some (lib.stringify (.arr [])) ∧
        row.docType = some "Unknown" ∧ row.error = none := by
  obtain ⟨h1, h2, hroom⟩ := nextRowid_bounds st hseq0 hseq hids
  have hdouble : toDouble (nextRowid st) = nextRowid st :=
    toDouble_of_small _ (by omega) h2
  have hfind := findRow_inserted
    { name := u.name, timestamp := env.now, status := "Processing" } st
  have hupd := findRow_updateDocument lib _
    { status := "Complete", summary := some text, topics := some (.arr []),
      docType := some "Unknown", tokens := some (Json.orElse resp.usage .null),
      error := none } _ _ hfind
  refine ⟨updateDocument lib (nextRowid st)
      { status := "Complete", summary := some text, topics := some (.arr []),
        docType := some "Unknown", tokens := some (Json.orElse resp.usage .null),
        error := none }
      { rows := st.rows ++ [insertedRow (nextRowid st)
          { name := u.name, timestamp := env.now, status := "Processing" }],
        seq := nextRowid st },
    { id := nextRowid st, summary := some (.str text), topics := some (.arr []),
      docType := some (.str "Unknown"), tokens := resp.usage }, ?_, ?_⟩
  · simp only [analyze, hmv, insertDocument, hroom, hdouble, hup, hcall, hrm, finishAnalyze,
      htext, Option.getD_some, hparse, fallbackData, Json.get, List.foldl, Json.orElse,
      textField]
    simp
  · refine ⟨rfl, rfl, rfl, rfl, fun r hr => lt_nextRowid st r hr, by simp [updateDocument],
      _, hupd, ?_⟩
    simp [updateRow, insertedRow]

theorem analyze_fallback_witness :
    ∃ st2 body, analyze jsonLib (some sampleUpload) (outputEnv "A short memo.") emptyStore =
        some (st2, .success body) ∧
      body.summary = some (.str "A short memo.") ∧ body.topics = some (.arr []) ∧
      body.docType = some (.str "Unknown") ∧ body.tokens = some sampleUsage ∧
      (∀ r ∈ emptyStore.rows, r.id < body.id) ∧
      st2.rows.length = emptyStore.rows.length + 1 ∧
      ∃ row, findRow body.id st2 = some row ∧
        row.name = some "a.pdf" ∧ row.status = some "Complete" ∧
        row.summary = some "A short memo." ∧
        row.topics = some (jsonLib.stringify (.arr [])) ∧
        row.docType = some "Unknown" ∧ row.error = none :=
  analyze_fallback jsonLib sampleUpload (outputEnv "A short memo.") emptyStore "file-1"
    { output_text := some "A short memo.", usage := some sampleUsage } "A short memo."
    (by decide) (by decide) (by decide) rfl rfl rfl rfl rfl (by rfl)

/-- C6 fails as stated: upload and external call succeed and the output is
plain text, but the temporary file is already gone when the handler
removes it (`fs.unlinkSync` throws). The handler answers 500 and the
record of the request is not Complete. -/
theorem analyze_fallback_fails_on_unlink :
    (analyze jsonLib (some sampleUpload) unlinkEnv (initStore emptyStore)).map
      (fun out => (out.1.statuses, out.2.failure?)) =
    some ([(1, some "Processing", none)],
          some (500, "ENOENT: no such file or directory, unlink \x27uploads/a.pdf\x27")) ∧
    jsonLib.parse "A short memo." = none := by
  constructor
  · decide
  · rfl

/-! ## Theorems: the list controller -/

/-- C7 fails as stated: after "a.pdf" was picked, analysed and answered with a
200, its entry is Complete and still holds its file; analyzeSingleFile(0)
on that list marks the entry Processing and sends a request. -/
theorem analyzeSingleFile_reanalyses_complete :
    labels completedHero.documents = [("a.pdf", "Complete")] ∧
    (labels (analyzeSingleFile (some 0) completedHero).1.documents,
     (analyzeSingleFile (some 0) completedHero).2.isSome) =
    ([("a.pdf", "Processing")], true) := by
  decide

/-- C7, as the code has it. For every document list and every index whose
entry has status "Complete" or "Processing": the list renders no Analyze
button for that entry, and every button it does render hands its own
index to analyzeSingleFile and belongs to an entry that holds a file and
is neither Processing nor Complete. analyzeSingleFile(index) itself
leaves the documents list and the active document unchanged and sends no
request when the entry has no raw file attached, when the index is out
of range and when it is null. -/
theorem complete_or_processing_not_offered (st : Hero) (i : Nat) (doc : Entry)
    (hdoc : st.documents[i]? = some doc)
    (hstatus : doc.status = .str "Complete" ∨ doc.status = .str "Processing") :
    (analyzeButtons st.documents)[i]? = some none ∧
    (∀ j k : Nat, (analyzeButtons st.documents)[j]? = some (some k) →
      k = j ∧ ∃ d : Entry, st.documents[j]? = some d ∧ d.file.truthy = true ∧
        d.status ≠ .str "Processing" ∧ d.status ≠ .str "Complete") ∧
    (doc.file.truthy = false → analyzeSingleFile (some (i : Int)) st = (st, none)) ∧
    (∀ j : Int, j < 0 ∨ (st.documents.length : Int) ≤ j →
      analyzeSingleFile (some j) st = (st, none)) ∧
    analyzeSingleFile none st = (st, none) := by
  have hbutton : analyzeButtonShown doc = false := by
    rcases hstatus with h | h <;> simp [analyzeButtonShown, h, Json.isStr]
  refine ⟨?_, ?_, ?_, ?_, rfl⟩
  · simp [analyzeButtons, List.getElem?_enum, hdoc, hbutton]
  · intro j k hjk
    simp only [analyzeButtons, List.getElem?_map, List.getElem?_enum] at hjk
    cases hd : st.documents[j]? with
    | none => simp [hd] at hjk
    | some d =>
      simp only [hd, Option.map_some', Option.some.injEq] at hjk
      split at hjk
      · rename_i hshown
        simp only [Option.some.injEq] at hjk
        refine ⟨hjk.symm, d, rfl, ?_⟩
        simp only [analyzeButtonShown, Bool.and_eq_true, Bool.not_eq_true'] at hshown
        refine ⟨hshown.1.1, ?_, ?_⟩
        · intro h; simp [h, Json.isStr] at hshown
        · intro h; simp [h, Json.isStr] at hshown
      · cases hjk
  · intro hfile
    unfold analyzeSingleFile
    simp only [Int.toNat_ofNat, hdoc, hfile]
    split <;> simp
  · intro j hj
    unfold analyzeSingleFile
    simp [hj]

theorem complete_or_processing_not_offered_witness :
    completedHero.documents.map (fun e => (e.status.text, e.file.truthy)) =
      [("Complete", true)] ∧
    (analyzeButtons completedHero.documents)[0]? = some none ∧
    analyzeSingleFile (some 1) completedHero = (completedHero, none) :=
  have hdoc : completedHero.documents[0]? =
      some { ref := 2, id := .num 8, name := .str "a.pdf",
             timestamp := .str "1/1/2024, 12:00:00 AM", status := .str "Complete",
             summary := .str "A short memo.", topics := [], docType := .str "Unknown",
             tokens := sampleUsage, file := .picked "a.pdf", raw := none } := rfl
  have h := complete_or_processing_not_offered completedHero 0 _ hdoc (Or.inl rfl)
  ⟨by decide, h.1, h.2.2.2.1 1 (Or.inr (by decide))⟩

/-- C8 at a failing input: the list was ["a.pdf" Processing]; loadDocs
prepended the server record "b.pdf" while the request was in flight; the
terminal update then overwrites "b.pdf" at index 0 with the result and
leaves the analysed entry, now at index 1, in Processing. -/
theorem terminal_update_overwrites_prepended :
    raceRun.map (fun run => (labels run.1, labels run.2)) =
    some ([("b.pdf", "Complete"), ("a.pdf", "Processing")],
          [("a.pdf", "Complete"), ("a.pdf", "Processing")]) := by
  decide

theorem normalizeDocFromBackend_toJson (ref : Nat) (now : String) (d : Doc) :
    ∃ e, normalizeDocFromBackend ref now d.toJson = .ok e ∧
      e.status = .str (d.status.getD "Complete") := by
  refine ⟨_, rfl, ?_⟩
  cases hs : d.status <;>
    simp [Doc.toJson, Json.get, List.foldl, Json.orElse, textJson, hs]

theorem normalizeAll_toJson (now : String) : ∀ (docs : List Doc) (ref : Nat),
    ∃ es, normalizeAll now ref (docs.map Doc.toJson) = .ok es ∧
      es.map (fun e => e.status) = docs.map (fun d => Json.str (d.status.getD "Complete")) := by
  intro docs
  induction docs with
  | nil => intro ref; exact ⟨[], rfl, rfl⟩
  | cons d ds ih =>
    intro ref
    obtain ⟨e, he, hst⟩ := normalizeDocFromBackend_toJson ref now d
    obtain ⟨es, hes, hsts⟩ := ih (ref + 1)
    refine ⟨e :: es, ?_, by simp [hst, hsts]⟩
    simp only [List.map_cons, normalizeAll, he, hes]

/-- C9, as the code has it. For every list of records returned by the store,
the entries loadDocs prepends (normalizeDocFromBackend of each record)
carry the stored status unchanged, so a record stored as "Error" enters
the list as "Error"; a record whose stored status is NULL enters it as
"Complete". The entries already in the list keep their status. -/
theorem loadDocs_keeps_stored_status (now : String) (docs : List Doc) (st : Hero) :
    (loadDocs now (some (.arr (docs.map Doc.toJson))) st).documents.map (fun e => e.status) =
      docs.map (fun d => Json.str (d.status.getD "Complete")) ++
        st.documents.map (fun e => e.status) := by
  obtain ⟨es, hes, hst⟩ := normalizeAll_toJson now docs st.nextRef
  simp [loadDocs, hes, hst]

/-- C9 fails as stated: the entry made from a store record of status "Error"
has status "Error", not "Failed". -/
theorem normalizeDocFromBackend_keeps_error :
    (match normalizeDocFromBackend 0 "1/1/2024, 12:00:00 AM" errorRecord.toJson with
     | .ok e => some e.status.text
     | .error _ => none) = some "Error" := by
  decide

/-- The helper replaceAt changes position `index` only. -/
theorem replaceAt_getElem?_ne {α : Type} (arr : List α) (index j : Nat) (x : α)
    (hindex : index < arr.length) (hj : j ≠ index) :
    (replaceAt arr index x)[j]? = arr[j]? := by
  have h : replaceAt arr index x = arr.set index x := by
    unfold replaceAt
    rw [List.set_eq_take_append_cons_drop]
    simp [hindex]
  rw [h, List.getElem?_set_ne (Ne.symm hj)]

theorem replaceAt_length {α : Type} (arr : List α) (index : Nat) (x : α)
    (hindex : index < arr.length) : (replaceAt arr index x).length = arr.length := by
  simp [replaceAt]; omega


end DocAnalyzer
